import Mathlib

/-!
Verification of `calculate_protected_CP.py` (jcristia/CGA).

This file shallowly embeds the pure computational core of the script:
Python dicts are modelled as association lists (`Dict`), Python `d[k] = v`
as `dinsert` (replace-first-or-append, matching dict update), Python
`k in d` / `d[k]` as `dcontains` / `dlookup`.  Python 2.7 dict iteration
order is unspecified, so association-list order is as faithful as any.
Areas and fractions are rationals; Python's `x / y` (which raises
`ZeroDivisionError` on `y == 0`) is modelled by `pydiv` returning
`Except`.  The arcpy geometry engine (projection, intersection,
dissolve, area) is out of scope per the spec; the embedding starts from
the attribute rows those operations produce.
-/

namespace CGA

/-- Association-list model of a Python dict with `String` keys. -/
abbrev Dict (α : Type) := List (String × α)

/-- Python `d[k]` / `d.get(k)`: first binding wins. -/
def dlookup {α : Type} : Dict α → String → Option α
  | [], _ => none
  | (k, v) :: d, key => if k = key then some v else dlookup d key

/-- Python `k in d`. -/
def dcontains {α : Type} (d : Dict α) (k : String) : Bool :=
  (dlookup d k).isSome

/-- Python `d[k] = v`: replace the (first) existing binding, else append. -/
def dinsert {α : Type} : Dict α → String → α → Dict α
  | [], key, v => [(key, v)]
  | (k, w) :: d, key, v =>
      if k = key then (k, v) :: d else (k, w) :: dinsert d key v

@[simp]
theorem dlookup_nil {α : Type} (k : String) : dlookup ([] : Dict α) k = none := rfl

@[simp]
theorem dlookup_cons {α : Type} (k key : String) (v : α) (d : Dict α) :
    dlookup ((k, v) :: d) key = if k = key then some v else dlookup d key := rfl

@[simp]
theorem dlookup_dinsert_self {α : Type} (d : Dict α) (k : String) (v : α) :
    dlookup (dinsert d k v) k = some v := by
  induction d with
  | nil => simp [dinsert]
  | cons p d ih =>
      obtain ⟨k1, w⟩ := p
      by_cases h : k1 = k
      · simp [dinsert, h]
      · simp [dinsert, h, ih]

theorem dlookup_dinsert_ne {α : Type} (d : Dict α) (k key : String) (v : α)
    (h : key ≠ k) : dlookup (dinsert d k v) key = dlookup d key := by
  have h2 : k ≠ key := Ne.symm h
  induction d with
  | nil => simp [dinsert, h2]
  | cons p d ih =>
      obtain ⟨k1, w⟩ := p
      by_cases h1 : k1 = k
      · subst h1
        simp [dinsert, h2]
      · simp only [dinsert, if_neg h1, dlookup_cons]
        by_cases h3 : k1 = key <;> simp [h3, ih]

theorem dlookup_eq_none_iff {α : Type} (d : Dict α) (k : String) :
    dlookup d k = none ↔ k ∉ d.map Prod.fst := by
  induction d with
  | nil => simp
  | cons p d ih =>
      obtain ⟨k1, w⟩ := p
      by_cases h : k1 = k
      · subst h
        simp
      · have h2 : k ≠ k1 := Ne.symm h
        simp [h, h2, ih]

theorem dlookup_some_mem {α : Type} {d : Dict α} {k : String} {v : α}
    (h : dlookup d k = some v) : (k, v) ∈ d := by
  induction d with
  | nil => simp at h
  | cons p d ih =>
      obtain ⟨k1, w⟩ := p
      by_cases h1 : k1 = k
      · subst h1
        simp at h
        simp [h]
      · simp [h1] at h
        simp [ih h]

/-- Splitting an association list at the first binding of a key. -/
theorem dlookup_some_split {α : Type} {d : Dict α} {k : String} {v : α}
    (h : dlookup d k = some v) :
    ∃ l1 l2, d = l1 ++ (k, v) :: l2 ∧ ∀ p ∈ l1, p.1 ≠ k := by
  induction d with
  | nil => simp at h
  | cons p d ih =>
      obtain ⟨k1, w⟩ := p
      by_cases h1 : k1 = k
      · subst h1
        simp at h
        exact ⟨[], d, by simp [h], by simp⟩
      · simp [h1] at h
        obtain ⟨l1, l2, hd, hl1⟩ := ih h
        refine ⟨(k1, w) :: l1, l2, by simp [hd], ?_⟩
        intro p hp
        rcases List.mem_cons.mp hp with hp | hp
        · simp [hp, h1]
        · exact hl1 p hp

theorem dinsert_keys {α : Type} (d : Dict α) (k : String) (v : α) :
    (dinsert d k v).map Prod.fst =
      if (dlookup d k).isSome then d.map Prod.fst else d.map Prod.fst ++ [k] := by
  induction d with
  | nil => simp [dinsert]
  | cons p d ih =>
      obtain ⟨k1, w⟩ := p
      by_cases h : k1 = k
      · simp [dinsert, h]
      · simp only [dinsert, if_neg h, List.map_cons, dlookup_cons]
        rw [ih]
        by_cases h2 : (dlookup d k).isSome <;> simp [h, h2]

theorem dinsert_keys_nodup {α : Type} (d : Dict α) (k : String) (v : α)
    (h : (d.map Prod.fst).Nodup) : ((dinsert d k v).map Prod.fst).Nodup := by
  rw [dinsert_keys]
  rcases hl : dlookup d k with _ | w
  · simp only [hl, Option.isSome_none, Bool.false_eq_true, if_false]
    refine List.Nodup.append h (by simp) ?_
    intro a ha hb
    simp at hb
    subst hb
    exact (dlookup_eq_none_iff d a).mp hl ha
  · simp [hl, h]

/-- Two-level lookup: Python `d[k1][k2]` with membership guards. -/
def dlookup2 {α : Type} (d : Dict (Dict α)) (k1 k2 : String) : Option α :=
  match dlookup d k1 with
  | none => none
  | some row => dlookup row k2

/-- Python `if k1 not in d: d[k1] = {}` followed by `d[k1][k2] = v`. -/
def dinsert2 {α : Type} (d : Dict (Dict α)) (k1 k2 : String) (v : α) : Dict (Dict α) :=
  match dlookup d k1 with
  | none => dinsert d k1 (dinsert [] k2 v)
  | some row => dinsert d k1 (dinsert row k2 v)

@[simp]
theorem dlookup2_dinsert2_self {α : Type} (d : Dict (Dict α)) (k1 k2 : String) (v : α) :
    dlookup2 (dinsert2 d k1 k2 v) k1 k2 = some v := by
  unfold dinsert2 dlookup2
  rcases h : dlookup d k1 with _ | row <;> simp [h]

theorem dlookup2_dinsert2_ne {α : Type} (d : Dict (Dict α)) (k1 k2 m1 m2 : String) (v : α)
    (h : m1 ≠ k1 ∨ m2 ≠ k2) :
    dlookup2 (dinsert2 d k1 k2 v) m1 m2 = dlookup2 d m1 m2 := by
  by_cases h1 : m1 = k1
  · subst h1
    have h2 : m2 ≠ k2 := h.resolve_left (by simp)
    unfold dinsert2 dlookup2
    rcases hl : dlookup d m1 with _ | row <;>
      simp [hl, dlookup_dinsert_ne _ _ _ _ h2]
  · unfold dinsert2 dlookup2
    rcases hl : dlookup d k1 with _ | row <;>
      simp [dlookup_dinsert_ne _ _ _ _ h1]

/-- Looking up in a nested dict after inserting an empty inner dict. -/
theorem dlookup2_dinsert_empty {α : Type} (d : Dict (Dict α)) (k m1 m2 : String) :
    dcontains d k = false →
    dlookup2 (dinsert d k []) m1 m2 = dlookup2 d m1 m2 := by
  intro hc
  unfold dcontains at hc
  by_cases h1 : m1 = k
  · subst h1
    rcases hl : dlookup d m1 with _ | row
    · unfold dlookup2
      simp [hl]
    · rw [hl] at hc
      simp at hc
  · unfold dlookup2
    rw [dlookup_dinsert_ne _ _ _ _ h1]

/-- Three-level lookup: Python `d[k1][k2][k3]` with membership guards. -/
def dlookup3 {α : Type} (d : Dict (Dict (Dict α))) (k1 k2 k3 : String) : Option α :=
  match dlookup d k1 with
  | none => none
  | some x => dlookup2 x k2 k3

/-- Python nested insertion `d[k1][k2][k3] = v`, creating missing levels. -/
def dinsert3 {α : Type} (d : Dict (Dict (Dict α))) (k1 k2 k3 : String) (v : α) :
    Dict (Dict (Dict α)) :=
  dinsert d k1 (dinsert2 ((dlookup d k1).getD []) k2 k3 v)

@[simp]
theorem dlookup3_dinsert3_self {α : Type} (d : Dict (Dict (Dict α))) (k1 k2 k3 : String) (v : α) :
    dlookup3 (dinsert3 d k1 k2 k3 v) k1 k2 k3 = some v := by
  unfold dinsert3 dlookup3
  simp

theorem dlookup3_dinsert3_ne {α : Type} (d : Dict (Dict (Dict α))) (k1 k2 k3 m1 m2 m3 : String)
    (v : α) (h : m1 ≠ k1 ∨ m2 ≠ k2 ∨ m3 ≠ k3) :
    dlookup3 (dinsert3 d k1 k2 k3 v) m1 m2 m3 = dlookup3 d m1 m2 m3 := by
  by_cases h1 : m1 = k1
  · subst h1
    have h2 : m2 ≠ k2 ∨ m3 ≠ k3 := h.resolve_left (by simp)
    unfold dinsert3 dlookup3
    simp only [dlookup_dinsert_self]
    rcases hl : dlookup d m1 with _ | x
    · simp only [hl, Option.getD_none]
      rw [dlookup2_dinsert2_ne _ _ _ _ _ _ h2]
      unfold dlookup2
      simp
    · simp only [hl, Option.getD_some]
      exact dlookup2_dinsert2_ne _ _ _ _ _ _ h2
  · unfold dinsert3 dlookup3
    rw [dlookup_dinsert_ne _ _ _ _ h1]

/-- Python `x / y`: raises `ZeroDivisionError` when `y == 0`. -/
def pydiv (x y : ℚ) : Except String ℚ :=
  if y = 0 then .error "ZeroDivisionError" else .ok (x / y)

@[simp]
theorem pydiv_ok {x y q : ℚ} : pydiv x y = .ok q ↔ y ≠ 0 ∧ q = x / y := by
  unfold pydiv
  by_cases h : y = 0 <;> simp [h, eq_comm]

/-- Monadic left fold over a list in `Except`, mirroring a Python `for` loop
whose body may raise. -/
def foldE {α β : Type} (f : β → α → Except String β) : β → List α → Except String β
  | b, [] => .ok b
  | b, a :: l => match f b a with
    | .error e => .error e
    | .ok b1 => foldE f b1 l

@[simp]
theorem foldE_nil {α β : Type} (f : β → α → Except String β) (b : β) :
    foldE f b [] = .ok b := rfl

theorem foldE_cons {α β : Type} (f : β → α → Except String β) (b : β) (a : α) (l : List α) :
    foldE f b (a :: l) = match f b a with
      | .error e => .error e
      | .ok b1 => foldE f b1 l := rfl

/-- A successful `foldE` equals the pure fold of any function that agrees
with the monadic step wherever the step succeeds. -/
theorem foldE_ok {α β : Type} (f : β → α → Except String β) (g : β → α → β)
    (hfg : ∀ b a b1, f b a = .ok b1 → b1 = g b a) :
    ∀ (l : List α) (b out : β), foldE f b l = .ok out → out = l.foldl g b := by
  intro l
  induction l with
  | nil => intro b out h; simp at h; simp [h]
  | cons a l ih =>
      intro b out h
      rw [foldE_cons] at h
      rcases hf : f b a with e | b1
      · rw [hf] at h; exact absurd h (by simp)
      · rw [hf] at h
        have := ih b1 out h
        simp [List.foldl_cons, this, hfg b a b1 hf]

/-- Row-by-row monadic map, mirroring a per-row computation that may raise. -/
def mapE {α β : Type} (f : α → Except String β) : List α → Except String (List β)
  | [] => .ok []
  | a :: l => match f a with
    | .error e => .error e
    | .ok b => match mapE f l with
      | .error e => .error e
      | .ok bs => .ok (b :: bs)

theorem mapE_ok {α β : Type} (f : α → Except String β) (g : α → β)
    (hfg : ∀ a b, f a = .ok b → b = g a) :
    ∀ (l : List α) (out : List β), mapE f l = .ok out → out = l.map g := by
  intro l
  induction l with
  | nil => intro out h; simp [mapE] at h; simp [h]
  | cons a l ih =>
      intro out h
      unfold mapE at h
      rcases hf : f a with e | b
      · rw [hf] at h; exact absurd h (by simp)
      · rw [hf] at h
        rcases hl : mapE f l with e | bs
        · rw [hl] at h; exact absurd h (by simp)
        · rw [hl] at h
          simp at h
          simp [← h, ih bs hl, hfg a b hf]

theorem mapE_error_of_mem {α β : Type} (f : α → Except String β) {l : List α} {a : α}
    (ha : a ∈ l) (he : ∃ e, f a = .error e) : ∃ e, mapE f l = .error e := by
  induction l with
  | nil => simp at ha
  | cons x l ih =>
      unfold mapE
      rcases hf : f x with e | b
      · exact ⟨e, rfl⟩
      · rcases List.mem_cons.mp ha with h | h
        · subst h
          obtain ⟨e, he⟩ := he
          rw [hf] at he
          exact absurd he (by simp)
        · obtain ⟨e, hrec⟩ := ih h
          rw [hrec]
          exact ⟨e, rfl⟩

/-- Generic invariant preservation along a pure `List.foldl`. -/
theorem foldl_inv {α β : Type} (f : β → α → β) (P : β → Prop)
    (hstep : ∀ b a, P b → P (f b a)) :
    ∀ (l : List α) (b : β), P b → P (l.foldl f b) := by
  intro l
  induction l with
  | nil => intro b h; simpa
  | cons a l ih => intro b h; simpa using ih (f b a) (hstep b a h)

/-- Generic frame rule: a fold whose every step preserves an observation
`g` leaves that observation unchanged. -/
theorem foldl_frame {α β γ : Type} (f : β → α → β) (g : β → γ)
    (l : List α) (hstep : ∀ b a, a ∈ l → g (f b a) = g b) :
    ∀ b : β, g (l.foldl f b) = g b := by
  induction l with
  | nil => intro b; simp
  | cons a l ih =>
      intro b
      simp only [List.foldl_cons]
      rw [ih (fun b1 a1 h1 => hstep b1 a1 (List.mem_cons_of_mem _ h1)),
        hstep b a (List.mem_cons_self _ _)]

/-! ## Interaction severities and effectiveness scores (§3) -/

/-- `calcEffectivenessScore` (source lines 830-840): stepwise effectiveness
score from severity counts. -/
def calcEffectivenessScore (num_high num_mod num_low : ℕ) : ℚ :=
  if num_high > 0 ∨ num_mod > 2 then 0
  else if num_mod = 2 then 0.24
  else if num_mod = 1 then 0.6
  else if num_low > 0 then 0.85
  else 1

/-- `countInteractions` (source lines 848-861): tallies HIGH/MODERATE/LOW
labels, silently ignoring anything else. -/
def countInteractions (i_list : List String) : ℕ × ℕ × ℕ :=
  i_list.foldl
    (fun t interaction =>
      if interaction = "HIGH" then (t.1 + 1, t.2.1, t.2.2)
      else if interaction = "MODERATE" then (t.1, t.2.1 + 1, t.2.2)
      else if interaction = "LOW" then (t.1, t.2.1, t.2.2 + 1)
      else t)
    (0, 0, 0)

theorem countInteractions_foldl (l : List String) :
    ∀ t : ℕ × ℕ × ℕ,
      l.foldl
        (fun t interaction =>
          if interaction = "HIGH" then (t.1 + 1, t.2.1, t.2.2)
          else if interaction = "MODERATE" then (t.1, t.2.1 + 1, t.2.2)
          else if interaction = "LOW" then (t.1, t.2.1, t.2.2 + 1)
          else t)
        t =
      (t.1 + l.count "HIGH", t.2.1 + l.count "MODERATE", t.2.2 + l.count "LOW") := by
  induction l with
  | nil => intro t; simp
  | cons s l ih =>
      intro t
      simp only [List.foldl_cons]
      rw [ih]
      by_cases h1 : s = "HIGH" <;> by_cases h2 : s = "MODERATE" <;>
        by_cases h3 : s = "LOW" <;>
        simp [h1, h2, h3, List.count_cons, Prod.ext_iff] <;> omega

theorem countInteractions_eq_counts (l : List String) :
    countInteractions l = (l.count "HIGH", l.count "MODERATE", l.count "LOW") := by
  unfold countInteractions
  rw [countInteractions_foldl]
  simp

/-- The §3 stepwise rule exactly as the spec states it, as a function of the
severity counts of the multiset. -/
def specStepwiseScore (cHigh cMod cLow : ℕ) : ℚ :=
  if cHigh > 0 ∨ cMod > 2 then 0
  else if cMod = 2 then 0.24
  else if cMod = 1 then 0.6
  else if cLow > 0 then 0.85
  else 1

/-- Effectiveness score of a multiset of severity labels, as the code
computes it (`calcEffectivenessScore` fed by `countInteractions`). -/
def effOfList (l : List String) : ℚ :=
  calcEffectivenessScore (countInteractions l).1 (countInteractions l).2.1
    (countInteractions l).2.2

/-- Claim C1: for every multiset of interaction severities, the effectiveness
score computed from its counts equals the stepwise rule (0.00 on any HIGH or
more than two MODERATE, 0.24 on exactly two MODERATE, 0.60 on one MODERATE,
0.85 on any LOW, else 1.00), and the tier values are monotonically
non-increasing as severity escalates: score {HIGH} ≤ score {MODERATE,MODERATE}
≤ score {MODERATE} ≤ score {LOW} ≤ score {}. -/
theorem C1_effectiveness_stepwise :
    (∀ l : List String,
      effOfList l =
        specStepwiseScore (l.count "HIGH") (l.count "MODERATE") (l.count "LOW")) ∧
    effOfList ["HIGH"] = 0 ∧ effOfList ["MODERATE", "MODERATE"] = 0.24 ∧
    effOfList ["MODERATE"] = 0.6 ∧ effOfList ["LOW"] = 0.85 ∧ effOfList [] = 1 ∧
    effOfList ["HIGH"] ≤ effOfList ["MODERATE", "MODERATE"] ∧
    effOfList ["MODERATE", "MODERATE"] ≤ effOfList ["MODERATE"] ∧
    effOfList ["MODERATE"] ≤ effOfList ["LOW"] ∧
    effOfList ["LOW"] ≤ effOfList [] := by
  have hmain : ∀ l : List String,
      effOfList l =
        specStepwiseScore (l.count "HIGH") (l.count "MODERATE") (l.count "LOW") := by
    intro l
    unfold effOfList
    rw [countInteractions_eq_counts]
    rfl
  have v1 : effOfList ["HIGH"] = 0 := by
    simp [effOfList, countInteractions, calcEffectivenessScore]
  have v2 : effOfList ["MODERATE", "MODERATE"] = 0.24 := by
    simp [effOfList, countInteractions, calcEffectivenessScore]
  have v3 : effOfList ["MODERATE"] = 0.6 := by
    simp [effOfList, countInteractions, calcEffectivenessScore]
  have v4 : effOfList ["LOW"] = 0.85 := by
    simp [effOfList, countInteractions, calcEffectivenessScore]
  have v5 : effOfList [] = 1 := by
    simp [effOfList, countInteractions, calcEffectivenessScore]
  refine ⟨hmain, v1, v2, v3, v4, v5, ?_, ?_, ?_, ?_⟩
  · rw [v1, v2]; norm_num
  · rw [v2, v3]; norm_num
  · rw [v3, v4]; norm_num
  · rw [v4, v5]; norm_num

/-- Claim C9: `countInteractions` returns exactly the triple of the counts of
elements equal to HIGH, MODERATE, and LOW; any other element (an unmapped raw
label, for instance) contributes to no count. -/
theorem C9_countInteractions_exact :
    (∀ l : List String,
      countInteractions l = (l.count "HIGH", l.count "MODERATE", l.count "LOW")) ∧
    (∀ (s : String) (l : List String),
      s ∉ (["HIGH", "MODERATE", "LOW"] : List String) →
      countInteractions (s :: l) = countInteractions l) := by
  constructor
  · exact countInteractions_eq_counts
  · intro s l hs
    have h1 : s ≠ "HIGH" := by intro h; exact hs (by simp [h])
    have h2 : s ≠ "MODERATE" := by intro h; exact hs (by simp [h])
    have h3 : s ≠ "LOW" := by intro h; exact hs (by simp [h])
    rw [countInteractions_eq_counts, countInteractions_eq_counts]
    simp [List.count_cons, Ne.symm h1, Ne.symm h2, Ne.symm h3]

/-- Witness for C9: the unmapped label VERY HIGH contributes to no count. -/
theorem C9_countInteractions_exact_witness :
    countInteractions ["VERY HIGH", "LOW"] = countInteractions ["LOW"] :=
  C9_countInteractions_exact.2 "VERY HIGH" ["LOW"] (by decide)

/-! ## Inclusion matrix and `shouldInclude` (§6) -/

/-- An inclusion-matrix cell value. `readMPAInclusionMatrix` maps any cell
other than Y/N/U to `none` (blank). -/
inductive Cell : Type
  | Y
  | N
  | U
  deriving DecidableEq, Repr

/-- One parsed inclusion-matrix cell (source line 609): a stripped cell in
Y/N/U is kept, anything else becomes blank (`none`). -/
def normalizeCell (s : String) : Option Cell :=
  let t := s.trim
  if t = "Y" then some Cell.Y
  else if t = "N" then some Cell.N
  else if t = "U" then some Cell.U
  else none

/-- `readMPAInclusionMatrix` (source lines 591-611) over an already-parsed
CSV: first row is the header of feature-class names, each later row starts
with the MPA name.  (Python indexes `header[i]` for `i < len(row)` and would
raise `IndexError` on a row longer than the header; well-formed matrix CSVs
have rows no longer than the header, which `zip` models.) -/
def readMPAInclusionMatrix (header : List String) (rows : List (List String)) :
    Dict (Dict (Option Cell)) :=
  rows.foldl
    (fun m row =>
      match row with
      | [] => m
      | mpa :: rest =>
          dinsert m mpa
            (((header.drop 1).zip rest).foldl
              (fun d p => dinsert d p.1 (normalizeCell p.2)) []))
    []

/-- `shouldInclude` (source lines 618-647).  The module-level override flags
are passed explicitly.  (Python compares the parsed cell with `is` against
the literals; CPython interns one-character strings, so this coincides with
equality on the values `readMPAInclusionMatrix` stores.) -/
def shouldInclude (override_y override_n : Bool) (override_u : Option Bool)
    (pct_in_mpa threshold : ℚ) (im : Dict (Dict (Option Cell))) (fc mpa : String) : Bool :=
  match dlookup im mpa with
  | none => decide (pct_in_mpa > threshold)
  | some row =>
    match dlookup row fc with
    | none => decide (pct_in_mpa > threshold)
    | some i_val =>
      match i_val with
      | none => decide (pct_in_mpa > threshold)
      | some v =>
          if v = Cell.Y ∧ override_y = false then true
          else if v = Cell.N ∧ override_n = false then false
          else
            match v, override_u with
            | Cell.U, some b => b
            | _, _ => decide (pct_in_mpa > threshold)

/-- The matrix cell recorded for (MPA, layer): `none` when the MPA row or the
layer column is absent, or when the cell is blank. -/
def cellAt (im : Dict (Dict (Option Cell))) (mpa fc : String) : Option Cell :=
  match dlookup im mpa with
  | none => none
  | some row =>
    match dlookup row fc with
    | none => none
    | some c => c

/-- The §6 override truth table exactly as the spec writes it, with
blank cell and absent MPA/layer key merged into the `none` row. -/
def specIncludeTable (cell : Option Cell) (override_y override_n : Bool)
    (override_u : Option Bool) (pct threshold : ℚ) : Bool :=
  match cell, override_y, override_n, override_u with
  | some Cell.Y, false, _, _ => true
  | some Cell.Y, true, _, _ => decide (pct > threshold)
  | some Cell.N, _, false, _ => false
  | some Cell.N, _, true, _ => decide (pct > threshold)
  | some Cell.U, _, _, some true => true
  | some Cell.U, _, _, some false => false
  | some Cell.U, _, _, none => decide (pct > threshold)
  | none, _, _, _ => decide (pct > threshold)

/-- Claim C2: `shouldInclude` realises the §6 truth table exactly, for all 8
combinations of matrix cell value and override flags: Y respects
`override_y`, N respects `override_n`, U follows `override_u` when set and
falls back when unset, and a blank cell or absent MPA/layer key falls back to
the threshold test `fraction_of_MPA_total > threshold`. -/
theorem C2_shouldInclude_truth_table
    (override_y override_n : Bool) (override_u : Option Bool)
    (pct threshold : ℚ) (im : Dict (Dict (Option Cell))) (fc mpa : String) :
    shouldInclude override_y override_n override_u pct threshold im fc mpa =
      specIncludeTable (cellAt im mpa fc) override_y override_n override_u pct threshold := by
  rcases him : dlookup im mpa with _ | row
  · simp [shouldInclude, cellAt, specIncludeTable, him]
  · rcases hrow : dlookup row fc with _ | ival
    · simp [shouldInclude, cellAt, specIncludeTable, him, hrow]
    · rcases ival with _ | v
      · simp [shouldInclude, cellAt, specIncludeTable, him, hrow]
      · rcases v with _ | _ | _ <;> rcases override_y with _ | _ <;>
          rcases override_n with _ | _ <;>
          rcases override_u with _ | b <;> try rcases b with _ | _
        all_goals simp [shouldInclude, cellAt, specIncludeTable, him, hrow]

/-! ## Presence aggregation (`process_geometry`, `calculate_presence`) -/

/-- One row of the dissolved intersection table entering the post-dissolve
part of `process_geometry` (source lines 684-694): the dissolve by
(MPA name, ecosection) has summed the scaled clipped area and carried the
layer's original total area, the whole-MPA area (`etp_mpa_area_TOTAL`,
captured before ecosection decomposition), the per-ecosection MPA area and
the MPA subregion as first-value aggregates.  The geometry engine producing
these rows is out of scope per the spec. -/
structure DissRow where
  mpa : String
  ecosection : String
  clip : ℚ
  ogArea : ℚ
  mpaArea : ℚ
  mpaAreaSection : ℚ
  subregion : String
  deriving DecidableEq, Repr

/-- A row of `process_geometry`'s output table, with the four percentage
fields and the per-MPA aggregate clipped area added (source lines 697-732). -/
structure RowT where
  mpa : String
  ecosection : String
  clip : ℚ
  ogArea : ℚ
  mpaArea : ℚ
  mpaAreaSection : ℚ
  subregion : String
  pct_of_mpa : ℚ
  pct_of_total : ℚ
  clipMpaTotal : ℚ
  pct_of_mpa_Total : ℚ
  deriving DecidableEq, Repr

/-- The per-MPA sum of clipped adjusted areas (source lines 711-728: the
update cursor sums `clipped_adjusted_area` over the rows of one MPA and
writes the sum to each of them). -/
def sumClipFor (rows : List DissRow) (m : String) : ℚ :=
  (rows.filter (fun r => r.mpa == m)).foldl (fun s r => s + r.clip) 0

/-- The percentage fields computed for one dissolved row (source lines
702-732): `pct_of_mpa = clip / mpaArea`, `pct_of_total = clip / ogArea`,
`pct_of_mpa_Total = (per-MPA sum of clip) / mpaArea`.  A zero denominator
makes the field calculation raise, modelled by `pydiv`. -/
def processRowTotals (rows : List DissRow) (r : DissRow) : Except String RowT :=
  match pydiv r.clip r.mpaArea with
  | .error e => .error e
  | .ok pm =>
    match pydiv r.clip r.ogArea with
    | .error e => .error e
    | .ok pt =>
      match pydiv (sumClipFor rows r.mpa) r.mpaArea with
      | .error e => .error e
      | .ok ptot =>
          .ok { mpa := r.mpa, ecosection := r.ecosection, clip := r.clip, ogArea := r.ogArea,
                mpaArea := r.mpaArea, mpaAreaSection := r.mpaAreaSection,
                subregion := r.subregion, pct_of_mpa := pm, pct_of_total := pt,
                clipMpaTotal := sumClipFor rows r.mpa, pct_of_mpa_Total := ptot }

/-- The same row computation in the success case, with rational division. -/
def pureRowTotals (rows : List DissRow) (r : DissRow) : RowT :=
  { mpa := r.mpa, ecosection := r.ecosection, clip := r.clip, ogArea := r.ogArea,
    mpaArea := r.mpaArea, mpaAreaSection := r.mpaAreaSection, subregion := r.subregion,
    pct_of_mpa := r.clip / r.mpaArea, pct_of_total := r.clip / r.ogArea,
    clipMpaTotal := sumClipFor rows r.mpa,
    pct_of_mpa_Total := sumClipFor rows r.mpa / r.mpaArea }

/-- `process_geometry` (source lines 660-740), restricted to its pure
attribute computations on the dissolved rows. -/
def process_geometry (rows : List DissRow) : Except String (List RowT) :=
  mapE (processRowTotals rows) rows

theorem processRowTotals_ok {rows : List DissRow} {r : DissRow} {t : RowT}
    (h : processRowTotals rows r = .ok t) : t = pureRowTotals rows r := by
  unfold processRowTotals at h
  rcases h1 : pydiv r.clip r.mpaArea with e | pm <;> rw [h1] at h
  · exact absurd h (by simp)
  · rcases h2 : pydiv r.clip r.ogArea with e | pt <;> rw [h2] at h
    · exact absurd h (by simp)
    · rcases h3 : pydiv (sumClipFor rows r.mpa) r.mpaArea with e | ptot <;> rw [h3] at h
      · exact absurd h (by simp)
      · rw [pydiv_ok] at h1 h2 h3
        simp only [Except.ok.injEq] at h
        rw [← h]
        unfold pureRowTotals
        simp [h1.2, h2.2, h3.2]

theorem process_geometry_ok {rows : List DissRow} {out : List RowT}
    (h : process_geometry rows = .ok out) : out = rows.map (pureRowTotals rows) :=
  mapE_ok (processRowTotals rows) (pureRowTotals rows)
    (fun _ _ hab => processRowTotals_ok hab) rows out h

theorem process_geometry_error {rows : List DissRow} {r : DissRow}
    (hr : r ∈ rows) (hz : r.mpaArea = 0 ∨ r.ogArea = 0) :
    ∃ e, process_geometry rows = .error e := by
  apply mapE_error_of_mem _ hr
  unfold processRowTotals
  rcases hz with hz | hz
  · rcases h1 : pydiv r.clip r.mpaArea with e | pm
    · exact ⟨e, rfl⟩
    · rw [pydiv_ok] at h1
      exact absurd hz h1.1
  · rcases h1 : pydiv r.clip r.mpaArea with e | pm
    · exact ⟨e, rfl⟩
    · rcases h2 : pydiv r.clip r.ogArea with e | pt
      · exact ⟨e, rfl⟩
      · rw [pydiv_ok] at h2
        exact absurd hz h2.1

/-- The presence record stored per (MPA, ecosection) by `calculate_presence`
(source lines 809-816).  The dead fields `region_area` and `pct_of_region`
(never output anywhere, see the source comment at lines 766-769) are
omitted. -/
structure PresRec where
  subregion : String
  clip_area : ℚ
  orig_area : ℚ
  mpa_area : ℚ
  pct_in_mpa : ℚ
  pct_of_total : ℚ
  deriving DecidableEq, Repr

/-- The presence record read off one processed row. -/
def presOfT (r : RowT) : PresRec :=
  { subregion := r.subregion, clip_area := r.clip, orig_area := r.ogArea,
    mpa_area := r.mpaArea, pct_in_mpa := r.pct_of_mpa, pct_of_total := r.pct_of_total }

/-- One iteration of the row cursor in `calculate_presence` (source lines
789-816): record the MPA's raw overlap fraction in the sliver map once, and
keep the row in the presence map only when `shouldInclude` passes, with the
per-MPA aggregate fraction `pct_of_mpa_Total` as the tested value. -/
def presenceStep (ovy ovn : Bool) (ovu : Option Bool) (thr : ℚ)
    (im : Dict (Dict (Option Cell))) (ds : String)
    (acc : Dict (Dict PresRec) × Dict ℚ) (r : RowT) : Dict (Dict PresRec) × Dict ℚ :=
  let slv := if dcontains acc.2 r.mpa then acc.2 else dinsert acc.2 r.mpa r.pct_of_mpa_Total
  if shouldInclude ovy ovn ovu r.pct_of_mpa_Total thr im ds r.mpa then
    (dinsert2 acc.1 r.mpa r.ecosection (presOfT r), slv)
  else (acc.1, slv)

/-- `calculate_presence` (source lines 756-823): crunch the geometry, then
filter the rows through `shouldInclude` into the nested presence map, and
collect the per-MPA sliver fractions.  (The sliver map stores the Python
dict `{'pct_overlap_cphu_mpa': v}` as the bare value `v`.) -/
def calculate_presence (ovy ovn : Bool) (ovu : Option Bool) (rows : List DissRow) (thr : ℚ)
    (im : Dict (Dict (Option Cell))) (ds : String) :
    Except String (Dict (Dict PresRec) × Dict ℚ) :=
  match process_geometry rows with
  | .error e => .error e
  | .ok rowsT => .ok (rowsT.foldl (presenceStep ovy ovn ovu thr im ds) ([], []))

theorem presenceFold_frame (ovy ovn : Bool) (ovu : Option Bool) (thr : ℚ)
    (im : Dict (Dict (Option Cell))) (ds : String) :
    ∀ (l : List RowT) (acc : Dict (Dict PresRec) × Dict ℚ) (m e : String),
      (∀ r ∈ l, ¬(r.mpa = m ∧ r.ecosection = e)) →
      dlookup2 (l.foldl (presenceStep ovy ovn ovu thr im ds) acc).1 m e =
        dlookup2 acc.1 m e := by
  intro l
  induction l with
  | nil => intro acc m e _; simp
  | cons r l ih =>
      intro acc m e hl
      simp only [List.foldl_cons]
      rw [ih _ m e (fun x hx => hl x (List.mem_cons_of_mem _ hx))]
      have hr := hl r (List.mem_cons_self _ _)
      unfold presenceStep
      by_cases hs : shouldInclude ovy ovn ovu r.pct_of_mpa_Total thr im ds r.mpa
      · simp only [hs, if_true]
        exact dlookup2_dinsert2_ne _ _ _ _ _ _
          ((not_and_or.mp hr).imp (fun h => Ne.symm h) (fun h => Ne.symm h))
      · simp [hs]

theorem presenceFold_lookup (ovy ovn : Bool) (ovu : Option Bool) (thr : ℚ)
    (im : Dict (Dict (Option Cell))) (ds : String) :
    ∀ (l : List RowT) (acc : Dict (Dict PresRec) × Dict ℚ) (m e : String),
      ((l.map fun r => (r.mpa, r.ecosection)).Nodup) →
      dlookup2 acc.1 m e = none →
      dlookup2 (l.foldl (presenceStep ovy ovn ovu thr im ds) acc).1 m e =
        match l.find? (fun r => r.mpa == m && r.ecosection == e) with
        | some r =>
            if shouldInclude ovy ovn ovu r.pct_of_mpa_Total thr im ds r.mpa then
              some (presOfT r)
            else none
        | none => none := by
  intro l
  induction l with
  | nil => intro acc m e _ h0; simpa using h0
  | cons r l ih =>
      intro acc m e hnd h0
      simp only [List.map_cons, List.nodup_cons] at hnd
      obtain ⟨hnd1, hnd2⟩ := hnd
      simp only [List.foldl_cons]
      by_cases hk : r.mpa = m ∧ r.ecosection = e
      · rw [List.find?_cons_of_pos _ (by simp [hk.1, hk.2])]
        have hnol : ∀ x ∈ l, ¬(x.mpa = m ∧ x.ecosection = e) := by
          intro x hx hxk
          apply hnd1
          have hkey : (x.mpa, x.ecosection) = (r.mpa, r.ecosection) := by
            rw [hxk.1, hxk.2, hk.1, hk.2]
          rw [← hkey]
          exact List.mem_map_of_mem _ hx
        rw [presenceFold_frame ovy ovn ovu thr im ds l _ m e hnol]
        unfold presenceStep
        rw [← hk.1, ← hk.2] at h0 ⊢
        by_cases hs : shouldInclude ovy ovn ovu r.pct_of_mpa_Total thr im ds r.mpa
        · simp [hs]
        · simpa [hs] using h0
      · rw [List.find?_cons_of_neg _ (by simpa using hk)]
        apply ih _ m e hnd2
        unfold presenceStep
        have hne : m ≠ r.mpa ∨ e ≠ r.ecosection :=
          (not_and_or.mp hk).imp (fun h => Ne.symm h) (fun h => Ne.symm h)
        by_cases hs : shouldInclude ovy ovn ovu r.pct_of_mpa_Total thr im ds r.mpa
        · simp only [hs, if_true]
          rw [dlookup2_dinsert2_ne _ _ _ _ _ _ hne]
          exact h0
        · simpa [hs] using h0

theorem find?_rowT_unique :
    ∀ (l : List RowT) (x : RowT), ((l.map fun t => (t.mpa, t.ecosection)).Nodup) → x ∈ l →
      l.find? (fun t => t.mpa == x.mpa && t.ecosection == x.ecosection) = some x := by
  intro l
  induction l with
  | nil => intro x _ hx; simp at hx
  | cons y l ih =>
      intro x hnd hx
      simp only [List.map_cons, List.nodup_cons] at hnd
      obtain ⟨hnd1, hnd2⟩ := hnd
      by_cases hy : y.mpa = x.mpa ∧ y.ecosection = x.ecosection
      · rw [List.find?_cons_of_pos _ (by simp [hy.1, hy.2])]
        rcases List.mem_cons.mp hx with h | h
        · rw [h]
        · exfalso
          apply hnd1
          have hkey : (x.mpa, x.ecosection) = (y.mpa, y.ecosection) := by
            rw [hy.1, hy.2]
          rw [← hkey]
          exact List.mem_map_of_mem _ h
      · have hxl : x ∈ l := by
          rcases List.mem_cons.mp hx with h | h
          · exact absurd (by rw [h]; exact ⟨rfl, rfl⟩) hy
          · exact h
        rw [List.find?_cons_of_neg _ (by simpa using hy)]
        exact ih x hnd2 hxl

/-- Claim C3: for every MPA with at least one ecosection row for a layer,
the fraction-of-MPA-total of each of that MPA's rows equals the sum of the
MPA's per-ecosection clipped (scaled) areas divided by the whole-MPA area
captured before ecosection decomposition, and this per-MPA aggregate
fraction — not the per-ecosection fraction — is the value whose threshold
test decides whether the row's record enters the returned presence map. -/
theorem C3_fraction_of_mpa_total
    (ovy ovn : Bool) (ovu : Option Bool) (rows : List DissRow) (thr : ℚ)
    (im : Dict (Dict (Option Cell))) (ds : String)
    (mpas : Dict (Dict PresRec)) (slv : Dict ℚ) (r : DissRow)
    (hnd : (rows.map fun x => (x.mpa, x.ecosection)).Nodup)
    (hr : r ∈ rows)
    (harea : ∀ x ∈ rows, x.mpa = r.mpa → x.mpaArea = r.mpaArea)
    (hok : calculate_presence ovy ovn ovu rows thr im ds = .ok (mpas, slv)) :
    (∀ x ∈ rows, x.mpa = r.mpa →
        (pureRowTotals rows x).pct_of_mpa_Total = sumClipFor rows r.mpa / r.mpaArea) ∧
    (dlookup2 mpas r.mpa r.ecosection = some (presOfT (pureRowTotals rows r)) ↔
      shouldInclude ovy ovn ovu (sumClipFor rows r.mpa / r.mpaArea) thr im ds r.mpa = true) := by
  unfold calculate_presence at hok
  rcases hpg : process_geometry rows with e | rowsT <;> rw [hpg] at hok
  · exact absurd hok (by simp)
  · simp only [Except.ok.injEq, Prod.mk.injEq] at hok
    have hrowsT : rowsT = rows.map (pureRowTotals rows) := process_geometry_ok hpg
    constructor
    · intro x hx hm
      show sumClipFor rows x.mpa / x.mpaArea = sumClipFor rows r.mpa / r.mpaArea
      rw [hm, harea x hx hm]
    · have hndT : (rowsT.map fun t => (t.mpa, t.ecosection)).Nodup := by
        rw [hrowsT, List.map_map]
        exact hnd
      have hmem : pureRowTotals rows r ∈ rowsT := by
        rw [hrowsT]
        exact List.mem_map_of_mem _ hr
      have hfold := presenceFold_lookup ovy ovn ovu thr im ds rowsT ([], [])
        (pureRowTotals rows r).mpa (pureRowTotals rows r).ecosection hndT (by simp [dlookup2])
      rw [find?_rowT_unique rowsT (pureRowTotals rows r) hndT hmem] at hfold
      have hmpas : mpas = (rowsT.foldl (presenceStep ovy ovn ovu thr im ds) ([], [])).1 := by
        rw [hok]
      have hfold2 : dlookup2 (rowsT.foldl (presenceStep ovy ovn ovu thr im ds) ([], [])).1
          r.mpa r.ecosection =
          if shouldInclude ovy ovn ovu (sumClipFor rows r.mpa / r.mpaArea) thr im ds r.mpa then
            some (presOfT (pureRowTotals rows r))
          else none := hfold
      rw [hmpas, hfold2]
      by_cases hs : shouldInclude ovy ovn ovu (sumClipFor rows r.mpa / r.mpaArea) thr im ds r.mpa
      · simp [hs]
      · simp [hs]

/-- Concrete MPA with two ecosection rows used as the witness for C3. -/
def c3row1 : DissRow :=
  { mpa := "Alpha", ecosection := "Hecate Strait", clip := 3, ogArea := 50,
    mpaArea := 100, mpaAreaSection := 60, subregion := "CC" }

/-- Second ecosection row of the witness MPA. -/
def c3row2 : DissRow :=
  { mpa := "Alpha", ecosection := "Dixon Entrance", clip := 3, ogArea := 50,
    mpaArea := 100, mpaAreaSection := 40, subregion := "CC" }

/-- The presence map `calculate_presence` returns on the witness rows. -/
def c3mpas : Dict (Dict PresRec) :=
  [("Alpha", [("Hecate Strait", presOfT (pureRowTotals [c3row1, c3row2] c3row1)),
              ("Dixon Entrance", presOfT (pureRowTotals [c3row1, c3row2] c3row2))])]

/-- The sliver map `calculate_presence` returns on the witness rows. -/
def c3slv : Dict ℚ := [("Alpha", 0.06)]

/-- Witness for C3 at a concrete two-ecosection MPA: the aggregate fraction
is (3+3)/100 and the record for ecosection `Hecate Strait` is retained
because 0.06 > 0.05. -/
theorem C3_fraction_of_mpa_total_witness :
    (pureRowTotals [c3row1, c3row2] c3row1).pct_of_mpa_Total =
      sumClipFor [c3row1, c3row2] "Alpha" / (100 : ℚ) ∧
    (dlookup2 c3mpas "Alpha" "Hecate Strait" =
        some (presOfT (pureRowTotals [c3row1, c3row2] c3row1)) ↔
      shouldInclude false true none (sumClipFor [c3row1, c3row2] "Alpha" / (100 : ℚ))
        0.05 [] "ds" "Alpha" = true) := by
  have h := C3_fraction_of_mpa_total false true none [c3row1, c3row2] 0.05 [] "ds"
    c3mpas c3slv c3row1 (by decide) (by simp)
    (by intro x hx hm; simp at hx; rcases hx with rfl | rfl <;> rfl)
    (by with_unfolding_all rfl)
  exact ⟨h.1 c3row1 (by simp) rfl, h.2⟩

/-! ## Interaction matrix and interaction identification -/

/-- Key normalization for interaction-matrix labels (source lines 880-891):
strip non-alphabetic characters, then lower-case. -/
def normalizeKey (s : String) : String :=
  (String.mk (s.data.filter Char.isAlpha)).toLower

/-- Severity renaming applied while loading the matrix (source lines
895-901): VERY HIGH becomes HIGH and MEDIUM becomes MODERATE. -/
def mapSeverity (s : String) : String :=
  if s = "VERY HIGH" then "HIGH"
  else if s = "MEDIUM" then "MODERATE"
  else s

/-- `loadInteractionsMatrix` (source lines 873-908) over already-parsed CSV
rows `(HU label, CP label, severity)` (columns 0, 2 and 3 of the file, after
the discarded header). -/
def loadInteractionsMatrix (rows : List (String × String × String)) : Dict (Dict String) :=
  rows.foldl
    (fun m row =>
      dinsert2 m (normalizeKey row.2.1) (normalizeKey row.1) (mapSeverity row.2.2))
    []

/-- `determineInteraction` (source lines 916-928): the CP lookup key is the
4th underscore-delimited segment of the CP dataset name, the HU key the 3rd
segment of the HU dataset name; a missing CP or HU key yields no
interaction.  (Python would raise `IndexError` on a name with too few
segments; the pipeline's naming convention guarantees enough segments, and
an out-of-range index is modelled as the empty string, which matches no
normalized matrix key.) -/
def determineInteraction (imatrix : Dict (Dict String)) (cp hu : String) : Option String :=
  let cpKey := (cp.splitOn "_").getD 3 ""
  let huKey := (hu.splitOn "_").getD 2 ""
  match dlookup imatrix cpKey with
  | none => none
  | some row => dlookup row huKey

/-- Per-MPA HU presence map: MPA name → HU dataset name → ecosection record
map, as assembled at source lines 1280-1284. -/
abbrev HUMap := Dict (Dict (Dict PresRec))

/-- Per-MPA CP presence map: MPA name → ecosection → CP dataset name →
presence record, as assembled at source lines 1286-1293. -/
abbrev CPMap := Dict (Dict (Dict PresRec))

/-- The interaction list collected for one CP in one MPA (source lines
955-959): one entry per HU key of the MPA whose matrix lookup yields a
severity.  (The Python dict also carries an `eff_score` slot that is filled
in later by `prepareOutputTable1`; only the list is consumed.) -/
def interListFor (imatrix : Dict (Dict String)) (hus : Dict (Dict PresRec))
    (cp : String) : List String :=
  (hus.map Prod.fst).filterMap (fun hu => determineInteraction imatrix cp hu)

/-- The innermost loop body of `identifyInteractions` (source lines
948-959): a CP already seen for this MPA is skipped, otherwise its full
interaction list is recorded. -/
def identifyCPStep (imatrix : Dict (Dict String)) (hus : Dict (Dict PresRec)) (mpa : String)
    (a : Dict (Dict (List String))) (c : String × PresRec) : Dict (Dict (List String)) :=
  if (dlookup2 a mpa c.1).isSome then a
  else dinsert2 a mpa c.1 (interListFor imatrix hus c.1)

/-- One HU-map entry of `identifyInteractions` (source lines 939-959): MPAs
with no CP presence are skipped; otherwise every CP of every ecosection of
the MPA is collected, deduplicated per MPA. -/
def identifyStep (imatrix : Dict (Dict String)) (cpM : CPMap)
    (acc : Dict (Dict (List String))) (p : String × Dict (Dict PresRec)) :
    Dict (Dict (List String)) :=
  match dlookup cpM p.1 with
  | none => acc
  | some ecos =>
      let acc1 := if dcontains acc p.1 then acc else dinsert acc p.1 []
      ecos.foldl (fun a2 q => q.2.foldl (identifyCPStep imatrix p.2 p.1) a2) acc1

/-- `identifyInteractions` (source lines 936-961). -/
def identifyInteractions (hu_in_mpas : HUMap) (cp_in_mpas : CPMap)
    (imatrix : Dict (Dict String)) : Dict (Dict (List String)) :=
  hu_in_mpas.foldl (identifyStep imatrix cp_in_mpas) []

theorem dlookup_dinsert2_outer_ne {α : Type} (d : Dict (Dict α)) (k1 k2 m : String) (v : α)
    (h : m ≠ k1) : dlookup (dinsert2 d k1 k2 v) m = dlookup d m := by
  unfold dinsert2
  rcases dlookup d k1 with _ | row <;> exact dlookup_dinsert_ne _ _ _ _ h

theorem dlookup3_dinsert_outer_ne {α : Type} (d : Dict (Dict (Dict α)))
    (a m e c : String) (x : Dict (Dict α)) (h : m ≠ a) :
    dlookup3 (dinsert d a x) m e c = dlookup3 d m e c := by
  unfold dlookup3
  rw [dlookup_dinsert_ne _ _ _ _ h]

theorem identifyCPStep_preserves (imatrix : Dict (Dict String)) (hus : Dict (Dict PresRec))
    (mpa : String) {a : Dict (Dict (List String))} {m k : String} {v : List String}
    (c : String × PresRec) (h : dlookup2 a m k = some v) :
    dlookup2 (identifyCPStep imatrix hus mpa a c) m k = some v := by
  unfold identifyCPStep
  by_cases hc : (dlookup2 a mpa c.1).isSome
  · simp [hc, h]
  · simp only [hc, Bool.false_eq_true, if_false]
    by_cases hk : m = mpa ∧ k = c.1
    · exfalso
      rw [hk.1, hk.2] at h
      rw [h] at hc
      simp at hc
    · rw [dlookup2_dinsert2_ne _ _ _ _ _ _ (not_and_or.mp hk)]
      exact h

theorem identifyCPFold_preserves (imatrix : Dict (Dict String)) (hus : Dict (Dict PresRec))
    (mpa : String) (cps : Dict PresRec) {a : Dict (Dict (List String))} {m k : String}
    {v : List String} (h : dlookup2 a m k = some v) :
    dlookup2 (cps.foldl (identifyCPStep imatrix hus mpa) a) m k = some v :=
  foldl_inv _ (fun x => dlookup2 x m k = some v)
    (fun b c hb => identifyCPStep_preserves imatrix hus mpa c hb) cps a h

theorem identifyEcoFold_preserves (imatrix : Dict (Dict String)) (hus : Dict (Dict PresRec))
    (mpa : String) (ecos : Dict (Dict PresRec)) {a : Dict (Dict (List String))} {m k : String}
    {v : List String} (h : dlookup2 a m k = some v) :
    dlookup2 (ecos.foldl (fun a2 q => q.2.foldl (identifyCPStep imatrix hus mpa) a2) a) m k =
      some v :=
  foldl_inv _ (fun x => dlookup2 x m k = some v)
    (fun b q hb => identifyCPFold_preserves imatrix hus mpa q.2 hb) ecos a h

theorem identifyStep_preserves (imatrix : Dict (Dict String)) (cpM : CPMap)
    {acc : Dict (Dict (List String))} {m k : String} {v : List String}
    (p : String × Dict (Dict PresRec)) (h : dlookup2 acc m k = some v) :
    dlookup2 (identifyStep imatrix cpM acc p) m k = some v := by
  unfold identifyStep
  rcases dlookup cpM p.1 with _ | ecos
  · exact h
  · apply identifyEcoFold_preserves
    by_cases hc : dcontains acc p.1
    · simpa [hc] using h
    · simp only [hc, Bool.false_eq_true, if_false]
      by_cases hm : m = p.1
      · exfalso
        unfold dcontains at hc
        unfold dlookup2 at h
        rw [hm] at h
        rcases hl : dlookup acc p.1 with _ | row
        · rw [hl] at h
          simp at h
        · rw [hl] at hc
          simp at hc
      · unfold dlookup2
        rw [dlookup_dinsert_ne _ _ _ _ hm]
        exact h

theorem identifyStep_frame (imatrix : Dict (Dict String)) (cpM : CPMap)
    (acc : Dict (Dict (List String))) (p : String × Dict (Dict PresRec)) (m : String)
    (h : p.1 ≠ m) : dlookup (identifyStep imatrix cpM acc p) m = dlookup acc m := by
  unfold identifyStep
  rcases dlookup cpM p.1 with _ | ecos
  · rfl
  · have hmne : m ≠ p.1 := Ne.symm h
    have hstep : ∀ (a2 : Dict (Dict (List String))) (q : String × Dict PresRec),
        dlookup (q.2.foldl (identifyCPStep imatrix p.2 p.1) a2) m = dlookup a2 m := by
      intro a2 q
      apply foldl_frame _ (fun x => dlookup x m)
      intro b c _
      unfold identifyCPStep
      by_cases hc : (dlookup2 b p.1 c.1).isSome
      · simp [hc]
      · simp only [hc, Bool.false_eq_true, if_false]
        exact dlookup_dinsert2_outer_ne _ _ _ _ _ hmne
    rw [foldl_frame _ (fun x => dlookup x m) _ (fun b q _ => hstep b q)]
    by_cases hc : dcontains acc p.1
    · simp [hc]
    · simp only [hc, Bool.false_eq_true, if_false]
      exact dlookup_dinsert_ne _ _ _ _ hmne

theorem identifyCPFold_sets (imatrix : Dict (Dict String)) (hus : Dict (Dict PresRec))
    (mpa cp : String) :
    ∀ (cps : Dict PresRec) (a : Dict (Dict (List String))),
      cp ∈ cps.map Prod.fst →
      dlookup2 (cps.foldl (identifyCPStep imatrix hus mpa) a) mpa cp =
        some ((dlookup2 a mpa cp).getD (interListFor imatrix hus cp)) := by
  intro cps
  induction cps with
  | nil => intro a h; simp at h
  | cons c rest ih =>
      intro a hmem
      simp only [List.foldl_cons]
      by_cases hcp : c.1 = cp
      · rcases hpres : dlookup2 a mpa cp with _ | w
        · have hstep : identifyCPStep imatrix hus mpa a c =
              dinsert2 a mpa cp (interListFor imatrix hus cp) := by
            unfold identifyCPStep
            rw [hcp, hpres]
            simp
          rw [hstep]
          rw [identifyCPFold_preserves imatrix hus mpa rest
            (dlookup2_dinsert2_self a mpa cp (interListFor imatrix hus cp))]
          simp [hpres]
        · have hstep : identifyCPStep imatrix hus mpa a c = a := by
            unfold identifyCPStep
            rw [hcp, hpres]
            simp
          rw [hstep]
          rw [identifyCPFold_preserves imatrix hus mpa rest hpres]
          simp [hpres]
      · have hrest : cp ∈ rest.map Prod.fst := by
          rw [List.map_cons] at hmem
          rcases List.mem_cons.mp hmem with h | h
          · exact absurd h.symm hcp
          · exact h
        have hstep : dlookup2 (identifyCPStep imatrix hus mpa a c) mpa cp =
            dlookup2 a mpa cp := by
          unfold identifyCPStep
          by_cases hc : (dlookup2 a mpa c.1).isSome
          · simp [hc]
          · simp only [hc, Bool.false_eq_true, if_false]
            exact dlookup2_dinsert2_ne _ _ _ _ _ _ (Or.inr (Ne.symm hcp))
        rw [ih _ hrest, hstep]

theorem identifyEcoFold_sets (imatrix : Dict (Dict String)) (hus : Dict (Dict PresRec))
    (mpa cp : String) :
    ∀ (ecos : Dict (Dict PresRec)) (a : Dict (Dict (List String))),
      (∃ q ∈ ecos, cp ∈ q.2.map Prod.fst) →
      dlookup2 (ecos.foldl (fun a2 q => q.2.foldl (identifyCPStep imatrix hus mpa) a2) a)
          mpa cp =
        some ((dlookup2 a mpa cp).getD (interListFor imatrix hus cp)) := by
  intro ecos
  induction ecos with
  | nil => intro a h; simp at h
  | cons q rest ih =>
      intro a hocc
      simp only [List.foldl_cons]
      by_cases hq : cp ∈ q.2.map Prod.fst
      · rw [identifyEcoFold_preserves imatrix hus mpa rest
          (identifyCPFold_sets imatrix hus mpa cp q.2 a hq)]
      · have hrest : ∃ x ∈ rest, cp ∈ x.2.map Prod.fst := by
          obtain ⟨x, hx, hxc⟩ := hocc
          rcases List.mem_cons.mp hx with h | h
          · exact absurd (h ▸ hxc) hq
          · exact ⟨x, h, hxc⟩
        have hstep : dlookup2 (q.2.foldl (identifyCPStep imatrix hus mpa) a) mpa cp =
            dlookup2 a mpa cp := by
          apply foldl_frame _ (fun x => dlookup2 x mpa cp)
          intro b c hcmem
          unfold identifyCPStep
          by_cases hc : (dlookup2 b mpa c.1).isSome
          · simp [hc]
          · simp only [hc, Bool.false_eq_true, if_false]
            have hne : c.1 ≠ cp := by
              intro hh
              exact hq (hh ▸ List.mem_map_of_mem Prod.fst hcmem)
            exact dlookup2_dinsert2_ne _ _ _ _ _ _ (Or.inr (Ne.symm hne))
        rw [ih _ hrest, hstep]

/-- Looking the interaction list up in `identifyInteractions`: for an MPA
present in both maps, each CP present in any of its ecosections is recorded
once, with the interaction list gathered over all HU keys of that MPA. -/
theorem identifyInteractions_lookup (hu : HUMap) (cpM : CPMap)
    (imatrix : Dict (Dict String)) (mpa cp : String) (hus : Dict (Dict PresRec))
    (ecos : Dict (Dict PresRec))
    (hnod : (hu.map Prod.fst).Nodup)
    (hhu : dlookup hu mpa = some hus)
    (hecos : dlookup cpM mpa = some ecos)
    (hocc : ∃ q ∈ ecos, cp ∈ q.2.map Prod.fst) :
    dlookup2 (identifyInteractions hu cpM imatrix) mpa cp =
      some (interListFor imatrix hus cp) := by
  obtain ⟨l1, l2, hspl, hl1⟩ := dlookup_some_split hhu
  have hl2 : ∀ p ∈ l2, p.1 ≠ mpa := by
    intro p hp heq
    rw [hspl] at hnod
    simp only [List.map_append, List.map_cons] at hnod
    have h2 := hnod.of_append_right
    rw [List.nodup_cons] at h2
    exact h2.1 (heq ▸ List.mem_map_of_mem Prod.fst hp)
  unfold identifyInteractions
  rw [hspl, List.foldl_append, List.foldl_cons]
  set acc0 := List.foldl (identifyStep imatrix cpM) [] l1 with hacc0
  have hnone : dlookup acc0 mpa = none := by
    rw [hacc0]
    rw [foldl_frame _ (fun x => dlookup x mpa) l1
      (fun b p hp => identifyStep_frame imatrix cpM b p mpa (hl1 p hp))]
    rfl
  have hstep : dlookup2 (identifyStep imatrix cpM acc0 (mpa, hus)) mpa cp =
      some (interListFor imatrix hus cp) := by
    unfold identifyStep
    simp only
    rw [hecos]
    have hc : dcontains acc0 mpa = false := by
      unfold dcontains
      rw [hnone]
      rfl
    simp only [hc, Bool.false_eq_true, if_false]
    rw [identifyEcoFold_sets imatrix hus mpa cp ecos _ hocc]
    have : dlookup2 (dinsert acc0 mpa []) mpa cp = none := by
      unfold dlookup2
      simp
    rw [this]
    rfl
  exact foldl_inv _ (fun x => dlookup2 x mpa cp = some (interListFor imatrix hus cp))
    (fun b p hb => identifyStep_preserves imatrix cpM p hb) l2 _ hstep

/-- Well-formedness of a nested dict: unique keys at both levels. -/
def Nodup2 {α : Type} (d : Dict (Dict α)) : Prop :=
  (d.map Prod.fst).Nodup ∧ ∀ p ∈ d, (p.2.map Prod.fst).Nodup

theorem mem_dinsert {α : Type} {d : Dict α} {k : String} {v : α} {p : String × α}
    (h : p ∈ dinsert d k v) : p ∈ d ∨ p = (k, v) := by
  induction d with
  | nil => simpa [dinsert] using h
  | cons q rest ih =>
      obtain ⟨k1, w⟩ := q
      by_cases h1 : k1 = k
      · rw [dinsert, if_pos h1] at h
        rcases List.mem_cons.mp h with h | h
        · right
          rw [h, h1]
        · left
          exact List.mem_cons_of_mem _ h
      · rw [dinsert, if_neg h1] at h
        rcases List.mem_cons.mp h with h | h
        · left
          rw [h]
          exact List.mem_cons_self _ _
        · rcases ih h with h | h
          · exact Or.inl (List.mem_cons_of_mem _ h)
          · exact Or.inr h

theorem dinsert2_nodup2 {α : Type} {d : Dict (Dict α)} (k1 k2 : String) (v : α)
    (h : Nodup2 d) : Nodup2 (dinsert2 d k1 k2 v) := by
  constructor
  · unfold dinsert2
    rcases dlookup d k1 with _ | row <;> exact dinsert_keys_nodup _ _ _ h.1
  · intro p hp
    unfold dinsert2 at hp
    rcases hl : dlookup d k1 with _ | row <;> rw [hl] at hp
    · rcases mem_dinsert hp with h1 | h1
      · exact h.2 p h1
      · rw [h1]
        simp [dinsert]
    · rcases mem_dinsert hp with h1 | h1
      · exact h.2 p h1
      · rw [h1]
        exact dinsert_keys_nodup _ _ _ (h.2 (k1, row) (dlookup_some_mem hl))

theorem dinsert_empty_nodup2 {α : Type} {d : Dict (Dict α)} (k : String)
    (h : Nodup2 d) : Nodup2 (dinsert d k ([] : Dict α)) := by
  constructor
  · exact dinsert_keys_nodup _ _ _ h.1
  · intro p hp
    rcases mem_dinsert hp with h1 | h1
    · exact h.2 p h1
    · rw [h1]
      simp

theorem identifyInteractions_nodup2 (hu : HUMap) (cpM : CPMap)
    (imatrix : Dict (Dict String)) : Nodup2 (identifyInteractions hu cpM imatrix) := by
  unfold identifyInteractions
  apply foldl_inv _ Nodup2
  · intro acc p hacc
    unfold identifyStep
    rcases dlookup cpM p.1 with _ | ecos
    · exact hacc
    · apply foldl_inv _ Nodup2
      · intro a2 q ha2
        apply foldl_inv _ Nodup2
        · intro a3 c ha3
          unfold identifyCPStep
          by_cases hc : (dlookup2 a3 p.1 c.1).isSome
          · simpa [hc] using ha3
          · simp only [hc, Bool.false_eq_true, if_false]
            exact dinsert2_nodup2 _ _ _ ha3
        · exact ha2
      · by_cases hc : dcontains acc p.1
        · simpa [hc] using hacc
        · simp only [hc, Bool.false_eq_true, if_false]
          exact dinsert_empty_nodup2 _ hacc
  · exact ⟨by simp, by simp⟩

/-! ## Output table 1 (`prepareOutputTable1`) -/

/-- One cell of output table 1 (source lines 979-1023): the effectiveness
score rescales the clipped CP area, and the two percentage metrics divide
the rescaled area by the MPA area and by the CP's original total area. -/
structure T1Rec where
  mpa_area : ℚ
  og_area : ℚ
  uscaled_area : ℚ
  scaled_area : ℚ
  pct_of_mpa : ℚ
  pct_of_og : ℚ
  subregion : String
  deriving DecidableEq, Repr

/-- Table 1 structure: MPA → ecosection → CP → cell. -/
abbrev T1Map := Dict (Dict (Dict T1Rec))

/-- The fixed ecosection list of `prepareOutputTable1` (source line 982). -/
def ecosectionsList : List String :=
  ["Johnstone Strait", "Continental Slope", "Dixon Entrance", "Strait of Georgia",
   "Juan de Fuca Strait", "Queen Charlotte Strait", "North Coast Fjords", "Hecate Strait",
   "Queen Charlotte Sound", "Vancouver Island Shelf", "Transitional Pacific",
   "Subarctic Pacific"]

/-- One table-1 cell computed from a CP's interaction list and presence
record (source lines 994-1021), success case.  `effOfList` is the
effectiveness score obtained at lines 1005-1009 via `countInteractions` and
`calcEffectivenessScore`. -/
def t1EntryPure (inter : List String) (pres : PresRec) : T1Rec :=
  { mpa_area := pres.mpa_area, og_area := pres.orig_area, uscaled_area := pres.clip_area,
    scaled_area := effOfList inter * pres.clip_area,
    pct_of_mpa := effOfList inter * pres.clip_area / pres.mpa_area,
    pct_of_og := effOfList inter * pres.clip_area / pres.orig_area,
    subregion := pres.subregion }

/-- One table-1 cell with the Python divisions (source lines 1020-1021),
which raise `ZeroDivisionError` on a zero MPA or original area. -/
def t1EntryExc (inter : List String) (pres : PresRec) : Except String T1Rec :=
  match pydiv (effOfList inter * pres.clip_area) pres.mpa_area with
  | .error e => .error e
  | .ok pm =>
    match pydiv (effOfList inter * pres.clip_area) pres.orig_area with
    | .error e => .error e
    | .ok po =>
        .ok { mpa_area := pres.mpa_area, og_area := pres.orig_area,
              uscaled_area := pres.clip_area, scaled_area := effOfList inter * pres.clip_area,
              pct_of_mpa := pm, pct_of_og := po, subregion := pres.subregion }

/-- The ecosection loop body of `prepareOutputTable1` (source lines
989-1021), success case: a (MPA, ecosection, CP) with presence gets its
cell written.  (The source's create-then-update of the same fresh cell is
collapsed into one insertion; each (MPA, ecosection, CP) is visited once
because `identifyInteractions` deduplicates CPs per MPA.) -/
def prepEcoStep (cpM : CPMap) (mpa cp : String) (inter : List String)
    (o1 : T1Map) (eco : String) : T1Map :=
  match dlookup3 cpM mpa eco cp with
  | none => o1
  | some pres => dinsert3 o1 mpa eco cp (t1EntryPure inter pres)

/-- `prepareOutputTable1` in the success case. -/
def prepareOutputTable1Pure (cpI : Dict (Dict (List String))) (cpM : CPMap) : T1Map :=
  cpI.foldl
    (fun o1 p =>
      let o2 := if dcontains o1 p.1 then o1 else dinsert o1 p.1 []
      p.2.foldl (fun o3 q => ecosectionsList.foldl (prepEcoStep cpM p.1 q.1 q.2) o3) o2)
    []

/-- The ecosection loop body with Python division semantics. -/
def prepEcoStepExc (cpM : CPMap) (mpa cp : String) (inter : List String)
    (o1 : T1Map) (eco : String) : Except String T1Map :=
  match dlookup3 cpM mpa eco cp with
  | none => .ok o1
  | some pres =>
    match t1EntryExc inter pres with
    | .error e => .error e
    | .ok t => .ok (dinsert3 o1 mpa eco cp t)

/-- `prepareOutputTable1` (source lines 979-1023): iterate the interaction
map, and for each CP of each MPA write one cell per ecosection with
presence; a zero denominator anywhere aborts the whole table. -/
def prepareOutputTable1 (cpI : Dict (Dict (List String))) (cpM : CPMap) :
    Except String T1Map :=
  foldE
    (fun o1 p =>
      let o2 := if dcontains o1 p.1 then o1 else dinsert o1 p.1 []
      foldE (fun o3 q => foldE (prepEcoStepExc cpM p.1 q.1 q.2) o3 ecosectionsList) o2 p.2)
    [] cpI

theorem t1EntryExc_ok {inter : List String} {pres : PresRec} {t : T1Rec}
    (h : t1EntryExc inter pres = .ok t) : t = t1EntryPure inter pres := by
  unfold t1EntryExc at h
  rcases h1 : pydiv _ pres.mpa_area with e | pm <;> rw [h1] at h
  · exact absurd h (by simp)
  · rcases h2 : pydiv _ pres.orig_area with e | po <;> rw [h2] at h
    · exact absurd h (by simp)
    · rw [pydiv_ok] at h1 h2
      simp only [Except.ok.injEq] at h
      rw [← h]
      unfold t1EntryPure
      simp [h1.2, h2.2]

theorem t1EntryExc_error (inter : List String) (pres : PresRec)
    (h : pres.mpa_area = 0 ∨ pres.orig_area = 0) :
    ∃ e, t1EntryExc inter pres = .error e := by
  unfold t1EntryExc
  rcases h with h | h
  · rcases h1 : pydiv _ pres.mpa_area with e | pm
    · exact ⟨e, rfl⟩
    · rw [pydiv_ok] at h1
      exact absurd h h1.1
  · rcases h1 : pydiv _ pres.mpa_area with e | pm
    · exact ⟨e, rfl⟩
    · rcases h2 : pydiv _ pres.orig_area with e | po
      · exact ⟨e, rfl⟩
      · rw [pydiv_ok] at h2
        exact absurd h h2.1

theorem prepareOutputTable1_ok {cpI : Dict (Dict (List String))} {cpM : CPMap} {out : T1Map}
    (h : prepareOutputTable1 cpI cpM = .ok out) : out = prepareOutputTable1Pure cpI cpM := by
  unfold prepareOutputTable1 at h
  unfold prepareOutputTable1Pure
  refine foldE_ok _ _ ?_ cpI [] out h
  intro o1 p o2 hp
  refine foldE_ok _ _ ?_ p.2 _ o2 hp
  intro o3 q o4 hq
  refine foldE_ok _ _ ?_ ecosectionsList o3 o4 hq
  intro o5 eco o6 heco
  unfold prepEcoStepExc at heco
  unfold prepEcoStep
  rcases hl : dlookup3 cpM p.1 eco q.1 with _ | pres <;> rw [hl] at heco <;> simp at heco ⊢
  · exact heco.symm
  · rcases ht : t1EntryExc q.2 pres with e | t <;> rw [ht] at heco <;> simp at heco
    rw [← heco, t1EntryExc_ok ht]

theorem prepEcoFold_self (cpM : CPMap) (mpa cp : String) (inter : List String) (eco : String)
    (pres : PresRec) (hpres : dlookup3 cpM mpa eco cp = some pres) :
    ∀ (es : List String) (o1 : T1Map), es.Nodup → eco ∈ es →
      dlookup3 (es.foldl (prepEcoStep cpM mpa cp inter) o1) mpa eco cp =
        some (t1EntryPure inter pres) := by
  intro es
  induction es with
  | nil => intro o1 _ h; simp at h
  | cons e1 rest ih =>
      intro o1 hnd hmem
      rw [List.nodup_cons] at hnd
      simp only [List.foldl_cons]
      by_cases he : e1 = eco
      · subst he
        have hstep : prepEcoStep cpM mpa cp inter o1 e1 =
            dinsert3 o1 mpa e1 cp (t1EntryPure inter pres) := by
          unfold prepEcoStep
          rw [hpres]
        rw [hstep]
        rw [foldl_frame _ (fun x => dlookup3 x mpa e1 cp) rest _]
        · simp
        · intro b e2 he2
          have hne : e2 ≠ e1 := fun hh => hnd.1 (hh ▸ he2)
          unfold prepEcoStep
          rcases dlookup3 cpM mpa e2 cp with _ | p2
          · rfl
          · exact dlookup3_dinsert3_ne _ _ _ _ _ _ _ _ (Or.inr (Or.inl (Ne.symm hne)))
      · have hmem2 : eco ∈ rest := by
          rcases List.mem_cons.mp hmem with h | h
          · exact absurd h.symm he
          · exact h
        have hstep : dlookup3 (prepEcoStep cpM mpa cp inter o1 e1) mpa eco cp =
            dlookup3 o1 mpa eco cp := by
          unfold prepEcoStep
          rcases dlookup3 cpM mpa e1 cp with _ | p2
          · rfl
          · exact dlookup3_dinsert3_ne _ _ _ _ _ _ _ _
              (Or.inr (Or.inl (fun hh => he hh.symm)))
        rw [ih _ hnd.2 hmem2]

theorem prepEcoFold_frame_cp_ne (cpM : CPMap) (mpa cp1 : String) (inter : List String)
    (m e c : String) (hne : cp1 ≠ c) (es : List String) (o1 : T1Map) :
    dlookup3 (es.foldl (prepEcoStep cpM mpa cp1 inter) o1) m e c = dlookup3 o1 m e c := by
  apply foldl_frame _ (fun x => dlookup3 x m e c)
  intro b e1 _
  unfold prepEcoStep
  rcases dlookup3 cpM mpa e1 cp1 with _ | p2
  · rfl
  · exact dlookup3_dinsert3_ne _ _ _ _ _ _ _ _ (Or.inr (Or.inr (Ne.symm hne)))

theorem prepEcoFold_frame_mpa_ne (cpM : CPMap) (mpa1 cp1 : String) (inter : List String)
    (m e c : String) (hne : mpa1 ≠ m) (es : List String) (o1 : T1Map) :
    dlookup3 (es.foldl (prepEcoStep cpM mpa1 cp1 inter) o1) m e c = dlookup3 o1 m e c := by
  apply foldl_frame _ (fun x => dlookup3 x m e c)
  intro b e1 _
  unfold prepEcoStep
  rcases dlookup3 cpM mpa1 e1 cp1 with _ | p2
  · rfl
  · exact dlookup3_dinsert3_ne _ _ _ _ _ _ _ _ (Or.inl (Ne.symm hne))

/-- Looking a cell up in the successfully built table 1. -/
theorem prepareOutputTable1Pure_lookup (cpI : Dict (Dict (List String))) (cpM : CPMap)
    (mpa cp eco : String) (cps : Dict (List String)) (inter : List String) (pres : PresRec)
    (hnodI : (cpI.map Prod.fst).Nodup)
    (hmpaI : dlookup cpI mpa = some cps)
    (hnodC : (cps.map Prod.fst).Nodup)
    (hcp : dlookup cps cp = some inter)
    (hecoL : eco ∈ ecosectionsList)
    (hpres : dlookup3 cpM mpa eco cp = some pres) :
    dlookup3 (prepareOutputTable1Pure cpI cpM) mpa eco cp =
      some (t1EntryPure inter pres) := by
  have hndE : ecosectionsList.Nodup := by decide
  obtain ⟨l1, l2, hspl, hl1⟩ := dlookup_some_split hmpaI
  have hl2 : ∀ p ∈ l2, p.1 ≠ mpa := by
    intro p hp heq
    rw [hspl] at hnodI
    simp only [List.map_append, List.map_cons] at hnodI
    have h2 := hnodI.of_append_right
    rw [List.nodup_cons] at h2
    exact h2.1 (heq ▸ List.mem_map_of_mem Prod.fst hp)
  obtain ⟨m1, m2, hsplC, hm1⟩ := dlookup_some_split hcp
  have hm2 : ∀ q ∈ m2, q.1 ≠ cp := by
    intro q hq heq
    rw [hsplC] at hnodC
    simp only [List.map_append, List.map_cons] at hnodC
    have h2 := hnodC.of_append_right
    rw [List.nodup_cons] at h2
    exact h2.1 (heq ▸ List.mem_map_of_mem Prod.fst hq)
  unfold prepareOutputTable1Pure
  rw [hspl, List.foldl_append, List.foldl_cons]
  have hmid : ∀ o1 : T1Map,
      dlookup3 ((let o2 := if dcontains o1 mpa then o1 else dinsert o1 mpa [];
          cps.foldl (fun o3 q => ecosectionsList.foldl (prepEcoStep cpM mpa q.1 q.2) o3) o2))
        mpa eco cp = some (t1EntryPure inter pres) := by
    intro o1
    simp only
    rw [hsplC, List.foldl_append, List.foldl_cons]
    have hself := prepEcoFold_self cpM mpa cp inter eco pres hpres ecosectionsList
      (List.foldl (fun o3 q => ecosectionsList.foldl (prepEcoStep cpM mpa q.1 q.2) o3)
        (if dcontains o1 mpa then o1 else dinsert o1 mpa []) m1) hndE hecoL
    rw [foldl_frame _ (fun x => dlookup3 x mpa eco cp) m2 _]
    · exact hself
    · intro b q hq
      exact prepEcoFold_frame_cp_ne cpM mpa q.1 q.2 mpa eco cp (hm2 q hq) ecosectionsList b
  have hl2frame : ∀ (o : T1Map),
      dlookup3 (l2.foldl
        (fun o1 p =>
          let o2 := if dcontains o1 p.1 then o1 else dinsert o1 p.1 []
          p.2.foldl (fun o3 q => ecosectionsList.foldl (prepEcoStep cpM p.1 q.1 q.2) o3) o2)
        o) mpa eco cp = dlookup3 o mpa eco cp := by
    intro o
    apply foldl_frame _ (fun x => dlookup3 x mpa eco cp)
    intro b p hp
    simp only
    have hpm : p.1 ≠ mpa := hl2 p hp
    have hinner : ∀ (o3 : T1Map) (q : String × List String),
        dlookup3 (ecosectionsList.foldl (prepEcoStep cpM p.1 q.1 q.2) o3) mpa eco cp =
          dlookup3 o3 mpa eco cp :=
      fun o3 q => prepEcoFold_frame_mpa_ne cpM p.1 q.1 q.2 mpa eco cp hpm ecosectionsList o3
    rw [foldl_frame _ (fun x => dlookup3 x mpa eco cp) p.2 (fun b2 q _ => hinner b2 q)]
    by_cases hc : dcontains b p.1
    · simp [hc]
    · simp only [hc, Bool.false_eq_true, if_false]
      exact dlookup3_dinsert_outer_ne _ _ _ _ _ _ (Ne.symm hpm)
  rw [hl2frame, hmid]

/-- The concrete presence record of the C4 scenario: clipped area 6 of an
original total area 50, inside an MPA of area 100. -/
def c4pres : PresRec :=
  { subregion := "CC", clip_area := 6, orig_area := 50, mpa_area := 100,
    pct_in_mpa := 6 / 100, pct_of_total := 6 / 50 }

/-- CP presence map of the C4 scenario: one CP present (and included) in one
ecosection of MPA Alpha. -/
def c4cpM : CPMap :=
  [("Alpha", [("Hecate Strait", [("mpatt_eco_fish_reef_data", c4pres)])])]

/-- Counterexample to claim C4 as stated: the CP is present and included in
MPA Alpha (clipped area 6, original area 50), no HU is present anywhere (the
HU presence map is empty), yet output table 1 is empty — `identifyInteractions`
iterates only the MPAs of the HU presence map, so the MPA is dropped and the
CP row with pct_of_og = 6/50 = 0.12 that the claim promises never appears. -/
theorem C4_counterexample :
    dlookup3 c4cpM "Alpha" "Hecate Strait" "mpatt_eco_fish_reef_data" = some c4pres ∧
    identifyInteractions ([] : HUMap) c4cpM [] = [] ∧
    prepareOutputTable1 (identifyInteractions ([] : HUMap) c4cpM []) c4cpM =
      .ok ([] : T1Map) :=
  ⟨rfl, rfl, rfl⟩

/-- Claim C4 (amended): for every MPA in which a CP is present and included
and at least one HU is present — the MPA has an entry in the HU presence
map — but no present HU has a recorded interaction with the CP, the CP
receives EffectivenessScore 1.0 and appears in output table 1 with
pct_of_og = clip_area / og_area (so clipped area 6 of an original total
area 50 yields 6/50 = 0.12).  The claim as frozen, which asserts this for an
MPA with NO HU present, fails on the code: see the counterexample. -/
theorem C4_no_interaction_full_score
    (hu : HUMap) (cpM : CPMap) (imat : Dict (Dict String))
    (mpa eco cp : String) (hus ecos : Dict (Dict PresRec)) (cps0 : Dict PresRec)
    (pres : PresRec) (out : T1Map)
    (hnodHu : (hu.map Prod.fst).Nodup)
    (hhu : dlookup hu mpa = some hus)
    (hno : ∀ p ∈ hus, determineInteraction imat cp p.1 = none)
    (hecos : dlookup cpM mpa = some ecos)
    (heco : dlookup ecos eco = some cps0)
    (hcp : dlookup cps0 cp = some pres)
    (hecoL : eco ∈ ecosectionsList)
    (hok : prepareOutputTable1 (identifyInteractions hu cpM imat) cpM = .ok out) :
    dlookup3 out mpa eco cp = some (t1EntryPure [] pres) ∧
    effOfList [] = 1 ∧
    (t1EntryPure [] pres).scaled_area = 1 * pres.clip_area ∧
    (t1EntryPure [] pres).pct_of_og = pres.clip_area / pres.orig_area := by
  have hil : interListFor imat hus cp = [] := by
    unfold interListFor
    rw [List.filterMap_eq_nil_iff]
    intro huk hk
    obtain ⟨p, hp, hpe⟩ := List.mem_map.mp hk
    rw [← hpe]
    exact hno p hp
  have hocc : ∃ q ∈ ecos, cp ∈ q.2.map Prod.fst :=
    ⟨(eco, cps0), dlookup_some_mem heco,
      List.mem_map_of_mem Prod.fst (dlookup_some_mem hcp)⟩
  have hlook := identifyInteractions_lookup hu cpM imat mpa cp hus ecos hnodHu hhu hecos hocc
  rw [hil] at hlook
  have hnod2 := identifyInteractions_nodup2 hu cpM imat
  unfold dlookup2 at hlook
  rcases hmI : dlookup (identifyInteractions hu cpM imat) mpa with _ | cps <;>
    rw [hmI] at hlook
  · simp at hlook
  · have hpres3 : dlookup3 cpM mpa eco cp = some pres := by
      simp [dlookup3, dlookup2, hecos, heco, hcp]
    have hout : out = prepareOutputTable1Pure (identifyInteractions hu cpM imat) cpM :=
      prepareOutputTable1_ok hok
    have hnodC : (cps.map Prod.fst).Nodup := hnod2.2 (mpa, cps) (dlookup_some_mem hmI)
    have heff : effOfList [] = 1 := rfl
    refine ⟨?_, heff, rfl, ?_⟩
    · rw [hout]
      exact prepareOutputTable1Pure_lookup _ cpM mpa cp eco cps [] pres hnod2.1 hmI
        hnodC hlook hecoL hpres3
    · show effOfList [] * pres.clip_area / pres.orig_area = pres.clip_area / pres.orig_area
      rw [heff, one_mul]

/-- HU presence map of the C4 witness: one HU present in MPA Alpha. -/
def c4hu : HUMap :=
  [("Alpha", [("mpatt_hu_shipping_ais", [("Hecate Strait", c4pres)])])]

/-- Witness for the amended C4: MPA Alpha holds the CP and one HU, the
interaction matrix is empty (no recorded interaction), and the CP's table-1
cell carries pct_of_og = 6/50. -/
theorem C4_no_interaction_full_score_witness :
    dlookup3 (prepareOutputTable1Pure (identifyInteractions c4hu c4cpM []) c4cpM)
        "Alpha" "Hecate Strait" "mpatt_eco_fish_reef_data" =
      some (t1EntryPure [] c4pres) ∧
    effOfList [] = 1 ∧
    (t1EntryPure [] c4pres).pct_of_og = 6 / 50 := by
  have h := C4_no_interaction_full_score c4hu c4cpM [] "Alpha" "Hecate Strait"
    "mpatt_eco_fish_reef_data" [("mpatt_hu_shipping_ais", [("Hecate Strait", c4pres)])]
    [("Hecate Strait", [("mpatt_eco_fish_reef_data", c4pres)])]
    [("mpatt_eco_fish_reef_data", c4pres)] c4pres
    (prepareOutputTable1Pure (identifyInteractions c4hu c4cpM []) c4cpM)
    (by simp [c4hu]) rfl (by intro p hp; simp [c4hu] at hp; rw [hp]; rfl)
    rfl rfl rfl (by simp [ecosectionsList]) rfl
  exact ⟨h.1, h.2.1, by rw [h.2.2.2]; rfl⟩

/-- Claim C6: a zero denominator in the percentage computations — the
whole-MPA or original-layer area in `process_geometry`, the MPA or original
CP area in `prepareOutputTable1` — surfaces as an explicit error value
(modelling the ZeroDivisionError the Python division raises, which aborts
the run), never as a silent NaN or zero result. -/
theorem C6_zero_denominator_is_error :
    (∀ x : ℚ, pydiv x 0 = .error "ZeroDivisionError") ∧
    (∀ (rows : List DissRow) (r : DissRow), r ∈ rows → (r.mpaArea = 0 ∨ r.ogArea = 0) →
      ∃ e, process_geometry rows = .error e) ∧
    (∀ (inter : List String) (pres : PresRec),
      (pres.mpa_area = 0 ∨ pres.orig_area = 0) → ∃ e, t1EntryExc inter pres = .error e) :=
  ⟨fun _ => rfl, fun _ r hr hz => process_geometry_error hr hz, t1EntryExc_error⟩

/-- A dissolved row whose enclosing MPA has area 0. -/
def c6row : DissRow :=
  { mpa := "Alpha", ecosection := "Hecate Strait", clip := 6, ogArea := 50,
    mpaArea := 0, mpaAreaSection := 0, subregion := "CC" }

/-- A presence record whose original layer total area is 0. -/
def c6pres : PresRec :=
  { subregion := "CC", clip_area := 6, orig_area := 0, mpa_area := 100,
    pct_in_mpa := 0, pct_of_total := 0 }

/-- Witness for C6 at concrete zero denominators. -/
theorem C6_zero_denominator_is_error_witness :
    pydiv 6 0 = .error "ZeroDivisionError" ∧
    (∃ e, process_geometry [c6row] = .error e) ∧
    (∃ e, t1EntryExc [] c6pres = .error e) :=
  ⟨C6_zero_denominator_is_error.1 6,
   C6_zero_denominator_is_error.2.1 [c6row] c6row (by simp) (Or.inl rfl),
   C6_zero_denominator_is_error.2.2 [] c6pres (Or.inr rfl)⟩

/-! ## Output table 2 (`createOutputTable2`, `writeOutputTable2`) -/

/-- One table-2 accumulator cell (source lines 1061-1092).  The Python dict
key `protected` is a Lean keyword and is rendered `protectedArea`. -/
structure T2Rec where
  original : ℚ
  protectedArea : ℚ
  pct : ℚ
  deriving DecidableEq, Repr

/-- `createOutputTable2` (source lines 1061-1092): iterate every cell of
table 1 — whose middle key is the ECOSECTION name `prepareOutputTable1`
stored there, though this function calls it `region` — overwrite `original`
with the CP's original area, accumulate `protected`, then compute
pct = protected / original for cells with a nonzero original (the one
guarded division of the script). -/
def createOutputTable2 (o1 : T1Map) : Dict (Dict T2Rec) :=
  let t :=
    o1.foldl
      (fun t2 mp =>
        mp.2.foldl
          (fun t2a rp =>
            rp.2.foldl
              (fun t2b cpp =>
                let cur := (dlookup2 t2b cpp.1 rp.1).getD
                  { original := 0, protectedArea := 0, pct := 0 }
                dinsert2 t2b cpp.1 rp.1
                  { original := cpp.2.og_area,
                    protectedArea := cur.protectedArea + cpp.2.scaled_area,
                    pct := cur.pct })
              t2a)
          t2)
      []
  t.map (fun cp =>
    (cp.1, cp.2.map (fun rg =>
      (rg.1,
        if rg.2.original ≠ 0 then
          { rg.2 with pct := rg.2.protectedArea / rg.2.original }
        else rg.2))))

/-- The column list of `writeOutputTable2` (source line 1096). -/
def t2cols : List String := ["region", "CC", "NC", "NCVI", "HG"]

/-- One output row of `writeOutputTable2` (source lines 1104-1108): the
`pct` of each region key is placed at `cols.index(key)`, which raises
ValueError when the key is not one of the five column names. -/
def writeT2Row (rd : Dict T2Rec) : Except String (List (Option ℚ)) :=
  foldE
    (fun row p =>
      match t2cols.indexOf? p.1 with
      | none => .error "ValueError"
      | some i => .ok (row.set i (some p.2.pct)))
    (List.replicate 5 none) rd

/-- `writeOutputTable2` (source lines 1095-1109), modelled as producing the
list of CSV data rows (CP name and five value cells). -/
def writeOutputTable2 (t2 : Dict (Dict T2Rec)) :
    Except String (List (String × List (Option ℚ))) :=
  mapE
    (fun cp =>
      match writeT2Row cp.2 with
      | .error e => .error e
      | .ok row => .ok (cp.1, row))
    t2

/-- The one-cell table 1 used to evaluate the table-2 path: MPA Alpha,
ecosection Hecate Strait, CP reef with original area 50 and rescaled
protected area 6. -/
def c5o1 : T1Map :=
  [("Alpha", [("Hecate Strait", [("mpatt_eco_fish_reef_data", t1EntryPure [] c4pres)])])]

/-- Claim C5 fails on the code (code bug): table 2 is keyed by table 1's
ecosection names, not by the subregion codes CC/NC/NCVI/HG, and writing any
non-empty table raises ValueError because `cols.index` cannot find an
ecosection name among ['region','CC','NC','NCVI','HG'].  Evaluated at a
one-cell table 1: the aggregate row is keyed "Hecate Strait" — with the
correct protected fraction 6/50 — and the write step errors instead of
emitting the claimed CC/NC/NCVI/HG row. -/
theorem C5_table2_keyed_by_ecosection :
    createOutputTable2 c5o1 =
      [("mpatt_eco_fish_reef_data",
        [("Hecate Strait", { original := 50, protectedArea := 6, pct := 6 / 50 })])] ∧
    "Hecate Strait" ∉ t2cols ∧
    writeOutputTable2 (createOutputTable2 c5o1) = .error "ValueError" := by
  refine ⟨by with_unfolding_all rfl, by decide, by with_unfolding_all rfl⟩

/-! ## Dummy-HU injection (module level, source lines 1304-1320) -/

/-- The placeholder record injected for a known-but-unmeasured HU (source
lines 1313-1320).  The Python placeholder dict has no `subregion` key; that
field is never read for HU records and is modelled as the empty string. -/
def placeholderRec : PresRec :=
  { subregion := "", clip_area := 1, orig_area := 1, mpa_area := 1,
    pct_in_mpa := 1, pct_of_total := 1 }

/-- The ecosection dict injected for a missing (MPA, HU) pair. -/
def placeholderEco : Dict PresRec := [("ecosect_placeholder", placeholderRec)]

/-- The injection condition (source line 1308): matrix cell Y, or cell U
while `override_u is True`. -/
def injectCond (ovu : Option Bool) (cell : Option Cell) : Bool :=
  (cell == some Cell.Y) || ((cell == some Cell.U) && (ovu == some true))

/-- One (HU, cell) step of the injection loop (source lines 1308-1320):
when the condition holds, ensure the MPA key exists and insert the
placeholder only if the HU has no record for this MPA yet. -/
def injectStep (ovu : Option Bool) (mpa : String) (acc : HUMap)
    (q : String × Option Cell) : HUMap :=
  if injectCond ovu q.2 then
    let acc1 := if dcontains acc mpa then acc else dinsert acc mpa []
    if (dlookup2 acc1 mpa q.1).isSome then acc1
    else dinsert2 acc1 mpa q.1 placeholderEco
  else acc

/-- The module-level dummy-HU injection (source lines 1304-1320). -/
def injectDummyHUs (ovu : Option Bool) (im : Dict (Dict (Option Cell)))
    (hus : HUMap) : HUMap :=
  im.foldl (fun acc p => p.2.foldl (injectStep ovu p.1) acc) hus

/-- The ensure-MPA step never changes any two-level lookup. -/
theorem injectEnsure_lookup (acc : HUMap) (mpa m h : String) :
    dlookup2 (if dcontains acc mpa then acc else dinsert acc mpa []) m h =
      dlookup2 acc m h := by
  by_cases hc : dcontains acc mpa
  · simp [hc]
  · simp only [hc, Bool.false_eq_true, if_false]
    exact dlookup2_dinsert_empty acc mpa m h (by simpa using hc)

theorem injectStep_lookup (ovu : Option Bool) (mpa : String) (acc : HUMap)
    (q : String × Option Cell) (m h : String) :
    dlookup2 (injectStep ovu mpa acc q) m h = dlookup2 acc m h ∨
      (dlookup2 acc m h = none ∧
        dlookup2 (injectStep ovu mpa acc q) m h = some placeholderEco) := by
  unfold injectStep
  by_cases hcond : injectCond ovu q.2
  · simp only [hcond, if_true]
    have heq := injectEnsure_lookup acc mpa m h
    set acc1 := if dcontains acc mpa then acc else dinsert acc mpa [] with hacc1
    by_cases hpres : (dlookup2 acc1 mpa q.1).isSome
    · left
      simp [hpres, heq]
    · simp only [hpres, Bool.false_eq_true, if_false]
      by_cases hk : m = mpa ∧ h = q.1
      · right
        constructor
        · rw [← heq, hk.1, hk.2]
          simpa using hpres
        · rw [hk.1, hk.2]
          simp
      · left
        rw [dlookup2_dinsert2_ne _ _ _ _ _ _ (not_and_or.mp hk), heq]
  · simp [hcond]

theorem foldl_lookup_disj {α β γ : Type} (f : β → α → β) (L : β → Option γ) (w : γ)
    (hstep : ∀ b a, L (f b a) = L b ∨ (L b = none ∧ L (f b a) = some w)) :
    ∀ (l : List α) (b : β),
      L (l.foldl f b) = L b ∨ (L b = none ∧ L (l.foldl f b) = some w) := by
  intro l
  induction l with
  | nil => intro b; left; simp
  | cons a l ih =>
      intro b
      simp only [List.foldl_cons]
      rcases hstep b a with h | h
      · rcases ih (f b a) with h2 | h2
        · left
          rw [h2, h]
        · right
          rw [h] at h2
          exact h2
      · rcases ih (f b a) with h2 | h2
        · exact Or.inr ⟨h.1, h2.trans h.2⟩
        · exact Or.inr ⟨h.1, h2.2⟩

/-- Claim C10: the dummy-HU injection never modifies an existing presence
record — for every (MPA, HU) pair, the record after injection either equals
the record before, or the pair was absent beforehand and the record after
is exactly the injected placeholder. -/
theorem C10_injection_preserves_existing (ovu : Option Bool)
    (im : Dict (Dict (Option Cell))) (hus : HUMap) (mpa hu : String) :
    dlookup2 (injectDummyHUs ovu im hus) mpa hu = dlookup2 hus mpa hu ∨
      (dlookup2 hus mpa hu = none ∧
        dlookup2 (injectDummyHUs ovu im hus) mpa hu = some placeholderEco) := by
  unfold injectDummyHUs
  apply foldl_lookup_disj _ (fun x => dlookup2 x mpa hu) placeholderEco
  intro b p
  apply foldl_lookup_disj _ (fun x => dlookup2 x mpa hu) placeholderEco
  intro b2 q
  exact injectStep_lookup ovu p.1 b2 q mpa hu

theorem injectStep_preserves (ovu : Option Bool) (mpa1 : String) {acc : HUMap}
    {m h : String} {v : Dict PresRec} (q : String × Option Cell)
    (hv : dlookup2 acc m h = some v) :
    dlookup2 (injectStep ovu mpa1 acc q) m h = some v := by
  rcases injectStep_lookup ovu mpa1 acc q m h with heq | habs
  · rw [heq, hv]
  · rw [hv] at habs
    exact absurd habs.1 (by simp)

theorem injectStep_frame (ovu : Option Bool) (mpa1 : String) (acc : HUMap)
    (q : String × Option Cell) (m h : String) (hne : mpa1 ≠ m ∨ q.1 ≠ h) :
    dlookup2 (injectStep ovu mpa1 acc q) m h = dlookup2 acc m h := by
  unfold injectStep
  by_cases hcond : injectCond ovu q.2
  · simp only [hcond, if_true]
    have heq := injectEnsure_lookup acc mpa1 m h
    set acc1 := if dcontains acc mpa1 then acc else dinsert acc mpa1 [] with hacc1
    by_cases hpres : (dlookup2 acc1 mpa1 q.1).isSome
    · simp [hpres, heq]
    · simp only [hpres, Bool.false_eq_true, if_false]
      rw [dlookup2_dinsert2_ne _ _ _ _ _ _
        (hne.imp (fun hh => Ne.symm hh) (fun hh => Ne.symm hh)), heq]
  · simp [hcond]

/-- Claim C7: for every (MPA, HU) pair whose inclusion-matrix cell is Y, or
U while override_u is True, if the HU has no presence record for that MPA,
the injection step adds the placeholder record for it, so that the HU still
participates in interaction scoring for that MPA. -/
theorem C7_dummy_injection (ovu : Option Bool) (im : Dict (Dict (Option Cell)))
    (hus : HUMap) (mpa hu : String) (row : Dict (Option Cell)) (cell : Option Cell)
    (him : dlookup im mpa = some row)
    (hcell : dlookup row hu = some cell)
    (hcond : cell = some Cell.Y ∨ (cell = some Cell.U ∧ ovu = some true))
    (habsent : dlookup2 hus mpa hu = none) :
    dlookup2 (injectDummyHUs ovu im hus) mpa hu = some placeholderEco := by
  obtain ⟨l1, l2, hspl, hl1⟩ := dlookup_some_split him
  unfold injectDummyHUs
  rw [hspl, List.foldl_append, List.foldl_cons]
  have hacc0 : dlookup2 (l1.foldl (fun acc p => p.2.foldl (injectStep ovu p.1) acc) hus)
      mpa hu = none := by
    rw [foldl_frame _ (fun x => dlookup2 x mpa hu) l1 _]
    · exact habsent
    · intro b p hp
      exact foldl_frame _ (fun x => dlookup2 x mpa hu) p.2
        (fun b2 q _ => injectStep_frame ovu p.1 b2 q mpa hu (Or.inl (hl1 p hp))) b
  set acc0 := l1.foldl (fun acc p => p.2.foldl (injectStep ovu p.1) acc) hus with hacc0def
  obtain ⟨r1, r2, hsplR, hr1⟩ := dlookup_some_split hcell
  have hrow : dlookup2 (row.foldl (injectStep ovu mpa) acc0) mpa hu =
      some placeholderEco := by
    rw [hsplR, List.foldl_append, List.foldl_cons]
    have hmid : dlookup2 (r1.foldl (injectStep ovu mpa) acc0) mpa hu = none := by
      rw [foldl_frame _ (fun x => dlookup2 x mpa hu) r1
        (fun b q hq => injectStep_frame ovu mpa b q mpa hu (Or.inr (hr1 q hq)))]
      exact hacc0
    set acc1 := r1.foldl (injectStep ovu mpa) acc0 with hacc1def
    have hstep : dlookup2 (injectStep ovu mpa acc1 (hu, cell)) mpa hu =
        some placeholderEco := by
      unfold injectStep
      have hc : injectCond ovu cell = true := by
        unfold injectCond
        rcases hcond with h | h
        · simp [h]
        · simp [h.1, h.2]
      simp only [hc, if_true]
      have hens : dlookup2 (if dcontains acc1 mpa then acc1 else dinsert acc1 mpa []) mpa hu
          = none := by
        rw [injectEnsure_lookup acc1 mpa mpa hu]
        exact hmid
      show dlookup2
          (if (dlookup2 (if dcontains acc1 mpa then acc1 else dinsert acc1 mpa []) mpa
              hu).isSome
            then if dcontains acc1 mpa then acc1 else dinsert acc1 mpa []
            else dinsert2 (if dcontains acc1 mpa then acc1 else dinsert acc1 mpa []) mpa hu
              placeholderEco)
          mpa hu = some placeholderEco
      rw [hens]
      simp
    rw [foldl_inv _ (fun x => dlookup2 x mpa hu = some placeholderEco)
      (fun b q hb => injectStep_preserves ovu mpa q hb) r2 _ hstep]
  exact foldl_inv _ (fun x => dlookup2 x mpa hu = some placeholderEco)
    (fun b p hb =>
      foldl_inv _ (fun x => dlookup2 x mpa hu = some placeholderEco)
        (fun b2 q hb2 => injectStep_preserves ovu p.1 q hb2) p.2 b hb)
    l2 _ hrow

/-- Inclusion matrix of the C7 witness: MPA Alpha marks the HU Y. -/
def c7im : Dict (Dict (Option Cell)) :=
  [("Alpha", [("mpatt_hu_shipping_ais", some Cell.Y)])]

/-- Witness for C7: with an empty HU presence map, the Y cell injects the
placeholder record. -/
theorem C7_dummy_injection_witness :
    dlookup2 (injectDummyHUs none c7im []) "Alpha" "mpatt_hu_shipping_ais" =
      some placeholderEco :=
  C7_dummy_injection none c7im [] "Alpha" "mpatt_hu_shipping_ais"
    [("mpatt_hu_shipping_ais", some Cell.Y)] (some Cell.Y) rfl rfl (Or.inl rfl) rfl

/-! ## Scaling configuration (claim C8) -/

/-- `buildScalingDict` (source lines 412-423) over parsed CSV rows
(feature-class name, scaling attribute). -/
def buildScalingDict (rows : List (String × String)) : Dict String :=
  rows.foldl (fun d p => dinsert d p.1 p.2) []

/-- The module-level scaling setup (source lines 1213-1216): the scaling
dict is built exactly when `scaling_attribute_file` is set;
`scaling_attribute` is never examined here and no check that both settings
are set simultaneously exists anywhere in the script. -/
def setupScaling (scaling_attribute : Option String)
    (scaling_attribute_file : Option (List (String × String))) :
    Except String (Option (Dict String)) :=
  .ok (scaling_attribute_file.map buildScalingDict)

/-- Per-layer scaling-attribute resolution in `loadLayer` (source lines
467-469): a layer listed in the scaling dict uses the file's attribute
name, any other layer falls back to `scaling_attribute`. -/
def resolveScalingAttribute (scaling_dict : Option (Dict String))
    (scaling_attribute : Option String) (working_layer : String) : Option String :=
  match scaling_dict with
  | none => scaling_attribute
  | some d =>
    match dlookup d working_layer with
    | none => scaling_attribute
    | some a => some a

/-- Counterexample to claim C8: with BOTH scaling_attribute ("RI") and a
scaling-attribute file set simultaneously, the module-level setup succeeds
and builds the dict from the file — no ConfigurationError aborts the run
(no such check exists in the script). -/
theorem C8_counterexample :
    setupScaling (some "RI") (some [("mpatt_eco_reef", "attr")]) =
      .ok (some [("mpatt_eco_reef", "attr")]) := rfl

/-- Claim C8 (amended): the script never validates the two scaling settings
against each other; when both are set the run proceeds, the file is loaded,
and per layer the file's entry takes precedence over `scaling_attribute`,
which applies only to layers absent from the file. -/
theorem C8_no_validation_file_precedence
    (sa : String) (rows : List (String × String)) (layer : String) :
    setupScaling (some sa) (some rows) = .ok (some (buildScalingDict rows)) ∧
    (∀ a, dlookup (buildScalingDict rows) layer = some a →
      resolveScalingAttribute (some (buildScalingDict rows)) (some sa) layer = some a) ∧
    (dlookup (buildScalingDict rows) layer = none →
      resolveScalingAttribute (some (buildScalingDict rows)) (some sa) layer = some sa) := by
  refine ⟨rfl, ?_, ?_⟩
  · intro a ha
    simp [resolveScalingAttribute, ha]
  · intro ha
    simp [resolveScalingAttribute, ha]

/-- Witness for the amended C8 at a concrete configuration. -/
theorem C8_no_validation_file_precedence_witness :
    resolveScalingAttribute (some (buildScalingDict [("lyrA", "attrA")])) (some "RI")
      "lyrA" = some "attrA" ∧
    resolveScalingAttribute (some (buildScalingDict [("lyrA", "attrA")])) (some "RI")
      "lyrB" = some "RI" :=
  ⟨(C8_no_validation_file_precedence "RI" [("lyrA", "attrA")] "lyrA").2.1 "attrA" rfl,
   (C8_no_validation_file_precedence "RI" [("lyrA", "attrA")] "lyrB").2.2 rfl⟩

end CGA
